import Mathlib

/-!
Verification development for the Scintilla registry-file lexer
(`scintilla/lexers/LexRegistry.cxx`): a single-pass tokenizer (`LexerRegistry::Lex`)
and a line-based fold-level computer (`LexerRegistry::Fold`) for Windows `.reg`
files, together with their lookahead predicates.

The document is modelled as a `List Char`; positions are signed (`Int`) exactly
as `Sci_Position` is in the source, with `SafeGetCharAt` returning a default
character out of range.  Styles are the `SCE_REG_*` codes as natural numbers.
-/

namespace Registry

/-- NUL character, the out-of-range default the lexer passes to `SafeGetCharAt`. -/
def nulChar : Char := Char.ofNat 0

/-- Positional character access returning the default past the end of the
buffer, phrased by primitive recursion so that the kernel evaluates it with
small terms. -/
def charAtD (d : Char) (doc : List Char) : Nat → Char :=
  List.rec (motive := fun _ => Nat → Char) (fun _ => d)
    (fun hd _ ih n => Nat.casesOn (motive := fun _ => Char) n hd (fun m => ih m)) doc

/-- Modelled from the spec: the host document accessor's random-access character query
with a safe out-of-range default (`LexAccessor::SafeGetCharAt`). -/
def SafeGetCharAt (doc : List Char) (pos : Int) (chDefault : Char) : Char :=
  if pos < 0 then chDefault else charAtD chDefault doc pos.toNat

/-- Scintilla's `isspacechar` from CharacterSet.h: space or 0x09..0x0d. -/
def isspacechar (c : Char) : Bool := c == ' ' || (0x09 ≤ c.toNat && c.toNat ≤ 0x0d)

/-- ASCII hexadecimal digit, the default-locale behaviour of `isxdigit`. -/
def isxdigitC (c : Char) : Bool :=
  ('0' ≤ c && c ≤ '9') || ('a' ≤ c && c ≤ 'f') || ('A' ≤ c && c ≤ 'F')

/-- ASCII decimal digit, the default-locale behaviour of `isdigit`. -/
def isdigitC (c : Char) : Bool := '0' ≤ c && c ≤ '9'

/-- ASCII letter, the default-locale behaviour of `isalpha`. -/
def isalphaC (c : Char) : Bool := ('a' ≤ c && c ≤ 'z') || ('A' ≤ c && c ≤ 'Z')

/-- `IsByteValue`: value in [0,256), guarding the hex-digit classification. -/
def IsByteValue (c : Char) : Bool := decide (c.toNat < 256)

/-- The operator character set `CharacterSet(setNone, "-,.=:\\@()")`. -/
def setOperatorsContains (c : Char) : Bool :=
  c == '-' || c == ',' || c == '.' || c == '=' || c == ':' ||
  c == '\\' || c == '@' || c == '(' || c == ')'

/-! ### Style codes (`SCE_REG_*` from SciLexer.h) -/

def SCE_REG_DEFAULT : Nat := 0
def SCE_REG_COMMENT : Nat := 1
def SCE_REG_VALUENAME : Nat := 2
def SCE_REG_STRING : Nat := 3
def SCE_REG_HEXDIGIT : Nat := 4
def SCE_REG_VALUETYPE : Nat := 5
def SCE_REG_ADDEDKEY : Nat := 6
def SCE_REG_DELETEDKEY : Nat := 7
def SCE_REG_ESCAPED : Nat := 8
def SCE_REG_KEYPATH_GUID : Nat := 9
def SCE_REG_STRING_GUID : Nat := 10
def SCE_REG_PARAMETER : Nat := 11
def SCE_REG_OPERATOR : Nat := 12

/-- `LexerRegistry::IsStringState`. -/
def IsStringState (state : Nat) : Bool :=
  state == SCE_REG_VALUENAME || state == SCE_REG_STRING

/-- `LexerRegistry::IsKeyPathState`. -/
def IsKeyPathState (state : Nat) : Bool :=
  state == SCE_REG_ADDEDKEY || state == SCE_REG_DELETEDKEY

/-! ### Lookahead predicates (translated from LexRegistry.cxx) -/

/-- `AtEndOfLine`: true at buffer end (NUL), at `\n`, or at `\r` not followed by `\n`. -/
def AtEndOfLine (doc : List Char) (pos : Int) : Bool :=
  let curr := SafeGetCharAt doc pos nulChar
  let next := SafeGetCharAt doc (pos + 1) nulChar
  curr == nulChar || curr == '\n' || (curr == '\r' && next != '\n')

/-- `AtBeginOfLine`: mirror condition on the preceding character. -/
def AtBeginOfLine (doc : List Char) (pos : Int) : Bool :=
  let prev := SafeGetCharAt doc (pos - 1) nulChar
  let curr := SafeGetCharAt doc pos nulChar
  curr == nulChar || prev == '\n' || (prev == '\r' && curr != '\n')

/-- `AtValueType`: a `:` appears within the next 10 characters (stopping at NUL). -/
def AtValueTypeAux (doc : List Char) (start : Int) : Nat → Bool :=
  Nat.rec (motive := fun _ => Bool) false
    (fun n ih =>
      let curr := SafeGetCharAt doc (start + (10 - n : Nat)) nulChar
      if curr == ':' then true
      else if curr == nulChar then false
      else ih)

/-- `AtValueType` entry point: the source loop runs `i` from 1 to 10. -/
def AtValueType (doc : List Char) (start : Int) : Bool :=
  AtValueTypeAux doc start 10

/-- Loop body of `IsNextNonWhitespace`: advance while the current line continues;
true iff `ch` is found before any other non-whitespace character or end-of-line. -/
def IsNextNonWhitespaceAux (doc : List Char) (ch : Char) (fuel : Nat) : Int → Bool :=
  Nat.rec (motive := fun _ => Int → Bool) (fun _ => false)
    (fun _ ih start =>
      if !AtEndOfLine doc (start + 1) then
        let start' := start + 1
        let curr := SafeGetCharAt doc start' nulChar
        if curr == ch then true
        else if !isspacechar curr then false
        else ih start'
      else false) fuel

/-- `IsNextNonWhitespace`.  The fuel `doc.length + 2` dominates the loop, which can
run at most once per remaining document position before `AtEndOfLine` holds. -/
def IsNextNonWhitespace (doc : List Char) (start : Int) (ch : Char) : Bool :=
  IsNextNonWhitespaceAux doc ch (doc.length + 2) start

/-- Loop body of `IsPrevNonWhitespace`: backward mirror used for continuation detection. -/
def IsPrevNonWhitespaceAux (doc : List Char) (ch : Char) (fuel : Nat) : Int → Bool :=
  Nat.rec (motive := fun _ => Int → Bool) (fun _ => false)
    (fun _ ih start =>
      if !AtBeginOfLine doc (start - 1) then
        let start' := start - 1
        let curr := SafeGetCharAt doc start' nulChar
        if curr == ch then true
        else if !isspacechar curr then false
        else ih start'
      else false) fuel

/-- `IsPrevNonWhitespace`: true iff the first non-whitespace character reachable
scanning backward (without crossing the beginning of the previous line) is `ch`. -/
def IsPrevNonWhitespace (doc : List Char) (start : Int) (ch : Char) : Bool :=
  IsPrevNonWhitespaceAux doc ch (doc.length + 2) start

/-- Loop body of `AtValueName`: scan forward from an opening quote, `\` escaping
the following character; an unescaped `"` delegates to `IsNextNonWhitespace` for `=`. -/
def AtValueNameAux (doc : List Char) (fuel : Nat) : Int → Bool → Bool :=
  Nat.rec (motive := fun _ => Int → Bool → Bool) (fun _ _ => false)
    (fun _ ih start escaped =>
      if !AtEndOfLine doc (start + 1) then
        let start' := start + 1
        let curr := SafeGetCharAt doc start' nulChar
        if escaped then ih start' false
        else
          let escaped' := curr == '\\'
          if curr == '"' then IsNextNonWhitespace doc start' '='
          else if curr == nulChar then false
          else ih start' escaped'
      else false) fuel

/-- `AtValueName`: looks for the equal sign after the closing quote of the string. -/
def AtValueName (doc : List Char) (start : Int) : Bool :=
  AtValueNameAux doc (doc.length + 2) start false

/-- Loop body of `AtKeyPathEnd`: false if another `]` appears before end-of-line. -/
def AtKeyPathEndAux (doc : List Char) (fuel : Nat) : Int → Bool :=
  Nat.rec (motive := fun _ => Int → Bool) (fun _ => true)
    (fun _ ih start =>
      if !AtEndOfLine doc (start + 1) then
        let start' := start + 1
        let curr := SafeGetCharAt doc start' nulChar
        if curr == ']' then false
        else ih start'
      else true) fuel

/-- `AtKeyPathEnd`: true iff the line ends before another `]` appears. -/
def AtKeyPathEnd (doc : List Char) (start : Int) : Bool :=
  AtKeyPathEndAux doc (doc.length + 2) start

/-- Hex-or-hyphen character class used inside the GUID shape check. -/
def guidChar (c : Char) : Bool := isxdigitC c || c == '-'

/-- Inner loop of `AtGUID`: check `count` consecutive hex-or-hyphen characters,
returning the advanced offset, or `none` on the first mismatch. -/
def atGUIDgroup (doc : List Char) (start : Int) (offset : Nat) (count : Nat) : Option Nat :=
  Nat.rec (motive := fun _ => Nat → Option Nat) (fun off => some off)
    (fun _ ih off =>
      let digit := SafeGetCharAt doc (start + (off : Int)) ' '
      if guidChar digit then ih (off + 1) else none) count offset

/-- Outer loop of `AtGUID` over the five portions.  `pLeft` counts portions still
to check (source counts `portion` up from 0 to 5); the next group size is 13
exactly when the portion about to be checked is the last one (`portion == 4` in
the source, i.e. `pLeft == 1` here), else 5.  After all portions, the trailing
`}` is confirmed. -/
def atGUIDfrom (doc : List Char) (start : Int) : Nat → Nat → Nat → Bool
  | 0, _count, offset => SafeGetCharAt doc (start + (offset : Int)) ' ' == '}'
  | pLeft + 1, count, offset =>
    match atGUIDgroup doc start offset count with
    | none => false
    | some off => atGUIDfrom doc start pLeft (if pLeft == 1 then 13 else 5) off

/-- `AtGUID`: the 8-4-4-4-12 grouping check, counted in the source as groups of
8, 5, 5, 5 and 13 hex-or-hyphen characters starting one past the `{`. -/
def AtGUID (doc : List Char) (start : Int) : Bool :=
  atGUIDfrom doc start 5 8 1

/-! ### The scan context

Modelled from the spec: the host forward-scan cursor (Scintilla `StyleContext` /
`LexAccessor`) with current/next/previous character peeks, line start/end flags
computed uniformly for CR, LF and CRLF line ends, and a "commit current style
then advance" operation that colours the contiguous run `[startSeg, pos]` and
restarts the segment at `pos + 1`.  The per-invocation lexer locals of
`LexerRegistry::Lex` (`highlight`, `afterEqualSign`, `stateLastNonDefault`,
`beforeGUID`, `beforeEscape`) are carried in the same record. -/

/-- A styled segment: first position, last position, style code. -/
abbrev Seg := Nat × Nat × Nat

structure Ctx where
  pos : Nat
  state : Nat
  chPrev : Char
  ch : Char
  chNext : Char
  atLineStart : Bool
  atLineEnd : Bool
  highlight : Bool
  afterEqualSign : Bool
  stateLastNonDefault : Nat
  beforeGUID : Nat
  beforeEscape : Nat
  startSeg : Nat
  segs : List Seg
  deriving Repr, DecidableEq

/-- Modelled from the spec: a position is a line start when the preceding
character ends a line (or at position 0, the start of the document). -/
def atLineStartPos (doc : List Char) (pos : Nat) : Bool :=
  if pos == 0 then true
  else
    let prev := SafeGetCharAt doc ((pos : Int) - 1) nulChar
    let curr := SafeGetCharAt doc (pos : Int) nulChar
    prev == '\n' || (prev == '\r' && curr != '\n')

/-- Modelled from the spec: a position is a line end at buffer end, at `\n`, or
at `\r` not followed by `\n` (same condition as `AtEndOfLine`). -/
def atLineEndPos (doc : List Char) (pos : Nat) : Bool :=
  AtEndOfLine doc (pos : Int)

/-- `LexAccessor::ColourTo`: style the run `[startSeg, pos]` with `st` and restart
the segment at `pos + 1`; an empty run (`pos == startSeg - 1`) and the defensive
`pos < startSeg` case perform no styling. -/
def Ctx.colourTo (c : Ctx) (pos : Int) (st : Nat) : Ctx :=
  if pos + 1 == (c.startSeg : Int) then c
  else if pos < (c.startSeg : Int) then c
  else { c with segs := c.segs ++ [(c.startSeg, pos.toNat, st)], startSeg := pos.toNat + 1 }

/-- `StyleContext::SetState`: colour up to the previous position with the old
state, then switch to `st`. -/
def Ctx.setState (c : Ctx) (st : Nat) : Ctx :=
  { c.colourTo ((c.pos : Int) - 1) c.state with state := st }

/-- `StyleContext::Forward`: advance one position while before `endPos`,
shifting the character window; past `endPos` the characters become spaces and
the line-end flag is forced, with the position unchanged. -/
def Ctx.forward (doc : List Char) (endPos : Nat) (c : Ctx) : Ctx :=
  if c.pos < endPos then
    let pos' := c.pos + 1
    { c with
      pos := pos'
      chPrev := c.ch
      ch := c.chNext
      chNext := SafeGetCharAt doc ((pos' : Int) + 1) nulChar
      atLineStart := atLineStartPos doc pos'
      atLineEnd := atLineEndPos doc pos' }
  else
    { c with atLineStart := false, chPrev := ' ', ch := ' ', chNext := ' ', atLineEnd := true }

/-- `StyleContext::ForwardSetState`: advance, colour through the consumed
character with the old state, then switch to `st`. -/
def Ctx.forwardSetState (doc : List Char) (endPos : Nat) (c : Ctx) (st : Nat) : Ctx :=
  let c' := c.forward doc endPos
  { c'.colourTo ((c'.pos : Int) - 1) c'.state with state := st }

/-- `LexerRegistry::ContextForwardSetState`: remember the current state when it
is not `Default`, then `ForwardSetState` (for a real new state, `some st`) or a
plain `Forward` (for the `-1` sentinel, `none`). -/
def contextForwardSetState (doc : List Char) (endPos : Nat) (c : Ctx) (newState : Option Nat) :
    Ctx :=
  let c :=
    if c.state ≠ SCE_REG_DEFAULT then { c with stateLastNonDefault := c.state } else c
  match newState with
  | some st => c.forwardSetState doc endPos st
  | none => c.forward doc endPos

/-! ### The tokenizer state machine (`LexerRegistry::Lex`) -/

/-- The `context.atLineStart` block at the top of the `Lex` loop: recompute
`highlight` from the continuation check and, for a non-continued line, reset the
state to `Default` and clear the remembered last non-default style. -/
def lineStartCheck (doc : List Char) (c : Ctx) : Ctx :=
  if c.atLineStart then
    let continued := IsPrevNonWhitespace doc (c.pos : Int) '\\'
    let c := { c with highlight := continued }
    if !continued then
      { c.setState SCE_REG_DEFAULT with stateLastNonDefault := SCE_REG_DEFAULT }
    else c
  else c

/-- The `case SCE_REG_COMMENT` block. -/
def caseComment (c : Ctx) : Ctx :=
  if c.atLineEnd then c.setState SCE_REG_DEFAULT else c

/-- The quote/escape/GUID if-chain of the `SCE_REG_VALUENAME`/`SCE_REG_STRING`
case (everything before the `%`-parameter check). -/
def caseStringMain (doc : List Char) (endPos : Nat) (c : Ctx) : Ctx :=
  if c.ch == '"' then
    contextForwardSetState doc endPos c (some SCE_REG_DEFAULT)
  else if c.ch == '\\' then
    (Ctx.setState { c with beforeEscape := c.state } SCE_REG_ESCAPED).forward doc endPos
  else if c.ch == '{' then
    if AtGUID doc (c.pos : Int) then
      Ctx.setState { c with beforeGUID := c.state } SCE_REG_STRING_GUID
    else c
  else c

/-- The trailing `%`-parameter check of the `SCE_REG_VALUENAME`/`SCE_REG_STRING`
case, run on the context left by the if-chain. -/
def caseStringTail (c : Ctx) : Ctx :=
  if c.state == SCE_REG_STRING && c.ch == '%' && (isdigitC c.chNext || c.chNext == '*') then
    c.setState SCE_REG_PARAMETER
  else c

/-- The closing-quote check of the `SCE_REG_PARAMETER` case, run after the
unconditional `ContextForwardSetState(..., SCE_REG_STRING, ...)`. -/
def caseParameterTail (doc : List Char) (endPos : Nat) (c : Ctx) : Ctx :=
  if c.ch == '"' then contextForwardSetState doc endPos c (some SCE_REG_DEFAULT) else c

/-- The `case SCE_REG_VALUETYPE` block. -/
def caseValueType (c : Ctx) : Ctx :=
  if c.ch == ':' then { c.setState SCE_REG_DEFAULT with afterEqualSign := false } else c

/-- The `case SCE_REG_DELETEDKEY`/`SCE_REG_ADDEDKEY` block. -/
def caseKeyPath (doc : List Char) (endPos : Nat) (c : Ctx) : Ctx :=
  if c.ch == ']' && AtKeyPathEnd doc (c.pos : Int) then
    contextForwardSetState doc endPos c (some SCE_REG_DEFAULT)
  else if c.ch == '{' then
    if AtGUID doc (c.pos : Int) then
      Ctx.setState { c with beforeGUID := c.state } SCE_REG_KEYPATH_GUID
    else c
  else c

/-- The `case SCE_REG_ESCAPED` block. -/
def caseEscaped (doc : List Char) (endPos : Nat) (c : Ctx) : Ctx :=
  if c.ch == '"' then
    contextForwardSetState doc endPos (c.setState c.beforeEscape) (some SCE_REG_DEFAULT)
  else if c.ch == '\\' then
    c.forward doc endPos
  else
    { c.setState c.beforeEscape with beforeEscape := SCE_REG_DEFAULT }

/-- The leading `}` check of the `SCE_REG_STRING_GUID`/`SCE_REG_KEYPATH_GUID`
case (restore the saved state, then clear it). -/
def caseGuidBrace (doc : List Char) (endPos : Nat) (c : Ctx) : Ctx :=
  if c.ch == '}' then
    { contextForwardSetState doc endPos c (some c.beforeGUID) with
        beforeGUID := SCE_REG_DEFAULT }
  else c

/-- The remaining checks of the GUID case, run on the context left by the `}`
check (so `currPos` and the characters reflect any advancement). -/
def caseGuidTail (doc : List Char) (endPos : Nat) (c : Ctx) : Ctx :=
  if c.ch == '"' && IsStringState c.state then
    contextForwardSetState doc endPos c (some SCE_REG_DEFAULT)
  else if c.ch == ']' && IsKeyPathState c.state then
    if AtKeyPathEnd doc (c.pos : Int) then
      contextForwardSetState doc endPos c (some SCE_REG_DEFAULT)
    else
      contextForwardSetState doc endPos c (some c.beforeGUID)
  else if c.ch == '\\' && IsStringState c.state then
    (Ctx.setState { c with beforeEscape := c.state } SCE_REG_ESCAPED).forward doc endPos
  else c

/-- The `switch (context.state)` block of the `Lex` loop, dispatching on the
state at the top of the iteration. -/
def switchStep (doc : List Char) (endPos : Nat) (c : Ctx) : Ctx :=
  if c.state == SCE_REG_COMMENT then caseComment c
  else if c.state == SCE_REG_VALUENAME || c.state == SCE_REG_STRING then
    caseStringTail (caseStringMain doc endPos c)
  else if c.state == SCE_REG_PARAMETER then
    caseParameterTail doc endPos (contextForwardSetState doc endPos c (some SCE_REG_STRING))
  else if c.state == SCE_REG_VALUETYPE then caseValueType c
  else if c.state == SCE_REG_HEXDIGIT || c.state == SCE_REG_OPERATOR then
    c.setState SCE_REG_DEFAULT
  else if c.state == SCE_REG_DELETEDKEY || c.state == SCE_REG_ADDEDKEY then
    caseKeyPath doc endPos c
  else if c.state == SCE_REG_ESCAPED then caseEscaped doc endPos c
  else if c.state == SCE_REG_STRING_GUID || c.state == SCE_REG_KEYPATH_GUID then
    caseGuidTail doc endPos (caseGuidBrace doc endPos c)
  else c

/-- The leading if-chain of the new-state-entry block: comment, quote, bracket,
equal sign, value type and hex digit classification. -/
def entryMain (doc : List Char) (c : Ctx) : Ctx :=
  if c.ch == ';' then c.setState SCE_REG_COMMENT
  else if c.ch == '"' then
    if AtValueName doc (c.pos : Int) then c.setState SCE_REG_VALUENAME
    else c.setState SCE_REG_STRING
  else if c.ch == '[' then
    if IsNextNonWhitespace doc (c.pos : Int) '-' then c.setState SCE_REG_DELETEDKEY
    else c.setState SCE_REG_ADDEDKEY
  else if c.ch == '=' then
    { c with afterEqualSign := true, highlight := true }
  else if c.afterEqualSign then
    if (isalphaC c.ch && !isalphaC c.chPrev) && AtValueType doc (c.pos : Int) then
      c.setState SCE_REG_VALUETYPE
    else c
  else if IsByteValue c.ch && isxdigitC (Char.ofNat (c.ch.toNat &&& 255)) && c.highlight then
    c.setState SCE_REG_HEXDIGIT
  else c

/-- `highlight = (context.ch == '@') ? true : highlight`. -/
def entryAt (c : Ctx) : Ctx :=
  if c.ch == '@' then { c with highlight := true } else c

/-- The operator classification, run after the `@` re-enable. -/
def entryOperator (c : Ctx) : Ctx :=
  if setOperatorsContains c.ch && c.highlight then c.setState SCE_REG_OPERATOR else c

/-- The end-of-line style continuation for eolfilled: a line-terminator
character re-inherits the remembered last non-default style. -/
def entryEol (c : Ctx) : Ctx :=
  if c.ch == '\r' || c.ch == '\n' then c.setState c.stateLastNonDefault else c

/-- The "determine if a new state should be entered" block, run when the state
is `Default` after the switch. -/
def defaultEntry (doc : List Char) (c : Ctx) : Ctx :=
  if c.state == SCE_REG_DEFAULT then
    entryEol (entryOperator (entryAt (entryMain doc c)))
  else c

/-- One iteration of the `Lex` loop: line-start handling, the state switch, the
default-state entry checks, then the final `ContextForwardSetState(ctx, -1, ...)`. -/
def lexStep (doc : List Char) (endPos : Nat) (c : Ctx) : Ctx :=
  contextForwardSetState doc endPos
    (defaultEntry doc (switchStep doc endPos (lineStartCheck doc c))) none

/-- The `while (context.More() && context.ch)` loop, with fuel (phrased with
`Nat.rec` so that the kernel evaluates the iterations with small terms). -/
def lexLoop (doc : List Char) (endPos : Nat) (fuel : Nat) : Ctx → Ctx :=
  Nat.rec (motive := fun _ => Ctx → Ctx) (fun c => c)
    (fun _ ih c =>
      if c.pos < endPos ∧ c.ch ≠ nulChar then ih (lexStep doc endPos c) else c) fuel

/-- The `StyleContext` constructor bump: `if (endPos == lengthDocument) endPos++`
applied to `startPos + length`. -/
def lexEndPos (docLen startPos len : Nat) : Nat :=
  if startPos + len == docLen then startPos + len + 1 else startPos + len

/-- The freshly-constructed scan context for `Lex` (the `StyleContext`
constructor plus the lexer's initial locals). -/
def lexInit (doc : List Char) (startPos initStyle : Nat) : Ctx :=
  { pos := startPos
    state := initStyle
    chPrev := SafeGetCharAt doc ((startPos : Int) - 1) nulChar
    ch := SafeGetCharAt doc (startPos : Int) nulChar
    chNext := SafeGetCharAt doc ((startPos : Int) + 1) nulChar
    atLineStart := atLineStartPos doc startPos
    atLineEnd := atLineEndPos doc startPos
    highlight := true
    afterEqualSign := false
    stateLastNonDefault := SCE_REG_DEFAULT
    beforeGUID := SCE_REG_DEFAULT
    beforeEscape := SCE_REG_DEFAULT
    startSeg := startPos
    segs := [] }

/-- `StyleContext::Complete`: colour through the last consumed position with the
current state (when the scan ran one past the document the extra bump is
subtracted), flushing the final run. -/
def ctxComplete (doc : List Char) (c : Ctx) : Ctx :=
  c.colourTo ((c.pos : Int) - (if (doc.length : Int) < (c.pos : Int) then 2 else 1)) c.state

/-- `LexerRegistry::Lex`: build the scan context, run the loop, then complete. -/
def RegistryLex (doc : List Char) (startPos len : Nat) (initStyle : Nat) : Ctx :=
  ctxComplete doc
    (lexLoop doc (lexEndPos doc.length startPos len) (lexEndPos doc.length startPos len + 1)
      (lexInit doc startPos initStyle))

/-- Style stored at position `p` by a segment list (999 when never styled). -/
def styleAt (segs : List Seg) (p : Nat) : Nat :=
  List.rec (motive := fun _ => Nat) 999
    (fun seg _ ih => if seg.1 ≤ p ∧ p ≤ seg.2.1 then seg.2.2 else ih) segs

/-- The styles of positions `0, …, n-1`, in order, read off a segment list. -/
def stylesUpTo (segs : List Seg) (n : Nat) : List Nat :=
  Nat.rec (motive := fun _ => List Nat → List Nat) (fun acc => acc)
    (fun k ih acc => ih (styleAt segs k :: acc)) n []

/-- Lex a whole string from scratch and list the per-position styles. -/
def RegistryLexAll (s : String) : List Nat :=
  let doc := s.data
  let segs := (RegistryLex doc 0 doc.length SCE_REG_DEFAULT).segs
  stylesUpTo segs doc.length

/-! ### The folder (`LexerRegistry::Fold`) -/

def SC_FOLDLEVELBASE : Nat := 0x400
def SC_FOLDLEVELWHITEFLAG : Nat := 0x1000
def SC_FOLDLEVELHEADERFLAG : Nat := 0x2000

/-- Modelled from the spec: the host per-line fold-level store; a line with no
stored record reads as the base level. -/
def levelAt (levels : List (Nat × Nat)) (line : Nat) : Nat :=
  ((levels.find? (fun p => p.1 == line)).map Prod.snd).getD SC_FOLDLEVELBASE

/-- Modelled from the spec: `styler.SetLevel` updates the stored level. -/
def setLevelStore (levels : List (Nat × Nat)) (line lvl : Nat) : List (Nat × Nat) :=
  (line, lvl) :: levels

/-- Modelled from the spec: line-number-from-offset lookup (`styler.GetLine`):
the number of line ends strictly before `pos`, CR, LF and CRLF all counting once. -/
def lineOfPos (doc : List Char) : Nat → Nat :=
  Nat.rec (motive := fun _ => Nat) 0
    (fun pos ih =>
      let curr := SafeGetCharAt doc (pos : Int) nulChar
      let next := SafeGetCharAt doc ((pos : Int) + 1) nulChar
      ih + (if curr == '\n' || (curr == '\r' && next != '\n') then 1 else 0))

/-- State threaded through the `Fold` scan: current line, visible-character
count, key-path flag, the level store, and the `SetLevel` calls performed. -/
structure FoldSt where
  currLine : Nat
  visibleChars : Nat
  atKeyPath : Bool
  levels : List (Nat × Nat)
  events : List (Nat × Nat)
  deriving Repr, DecidableEq

/-- Fold level computed at a line boundary: base, bumped one past a header
predecessor, else inherited; whitespace-only lines get the white flag under
compact folding; key-path lines become base-level headers. -/
def foldLevelFor (foldCompact : Bool) (st : FoldSt) : Nat :=
  let level :=
    if 0 < st.currLine then
      let prevLevel := levelAt st.levels (st.currLine - 1)
      if prevLevel &&& SC_FOLDLEVELHEADERFLAG ≠ 0 then SC_FOLDLEVELBASE + 1 else prevLevel
    else SC_FOLDLEVELBASE
  if st.visibleChars == 0 && foldCompact then level ||| SC_FOLDLEVELWHITEFLAG
  else if st.atKeyPath then SC_FOLDLEVELBASE ||| SC_FOLDLEVELHEADERFLAG
  else level

/-- The `atKeyPath` latch at the top of each `Fold` iteration. -/
def foldKeyPathUpd (styles : List Seg) (i : Nat) (st : FoldSt) : FoldSt :=
  if IsKeyPathState (styleAt styles i) then { st with atKeyPath := true } else st

/-- The `atEOL` test of the `Fold` loop. -/
def foldAtEOL (doc : List Char) (i : Nat) : Bool :=
  (SafeGetCharAt doc (i : Int) ' ' == '\r' && SafeGetCharAt doc ((i : Int) + 1) ' ' != '\n') ||
    SafeGetCharAt doc (i : Int) ' ' == '\n'

/-- The guarded `SetLevel`: write (and record the call) only when the computed
level differs from the stored one. -/
def foldEmit (st : FoldSt) (level : Nat) : FoldSt :=
  if level ≠ levelAt st.levels st.currLine then
    { st with
        levels := setLevelStore st.levels st.currLine level
        events := st.events ++ [(st.currLine, level)] }
  else st

/-- Line-boundary handling: emit the computed level, then advance to the next
line resetting the per-line counters. -/
def foldLineEnd (foldCompact : Bool) (st : FoldSt) : FoldSt :=
  { foldEmit st (foldLevelFor foldCompact st) with
      currLine := st.currLine + 1, visibleChars := 0, atKeyPath := false }

/-- The trailing visible-character count of each `Fold` iteration. -/
def foldVisible (curr : Char) (st : FoldSt) : FoldSt :=
  if !isspacechar curr then { st with visibleChars := st.visibleChars + 1 } else st

/-- The per-position loop of `Fold` over `[i, endPos)`, with fuel. -/
def foldLoop (doc : List Char) (styles : List Seg) (foldCompact : Bool) (endPos : Nat)
    (i : Nat) (fuel : Nat) (st : FoldSt) : FoldSt :=
  Nat.rec (motive := fun _ => Nat → FoldSt → FoldSt) (fun _ st => st)
    (fun _ ih i st =>
      if i < endPos then
        ih (i + 1)
          (foldVisible (SafeGetCharAt doc (i : Int) ' ')
            (if foldAtEOL doc i || i == endPos - 1 then
              foldLineEnd foldCompact (foldKeyPathUpd styles i st)
            else foldKeyPathUpd styles i st))
      else st) fuel i st

/-- The loop part of `Fold`, starting from the line of `startPos`. -/
def foldScan (doc : List Char) (styles : List Seg) (foldCompact : Bool)
    (startPos len : Nat) (levels0 : List (Nat × Nat)) : FoldSt :=
  let endPos := startPos + len
  foldLoop doc styles foldCompact endPos startPos (len + 1)
    { currLine := lineOfPos doc startPos
      visibleChars := 0
      atKeyPath := false
      levels := levels0
      events := [] }

/-- The trailing "make the folding reach the last line" level of `Fold`. -/
def foldTailLevel (st : FoldSt) : Nat :=
  if 0 < st.currLine then
    let prevLevel := levelAt st.levels (st.currLine - 1)
    if prevLevel &&& SC_FOLDLEVELHEADERFLAG ≠ 0 then SC_FOLDLEVELBASE + 1 else prevLevel
  else SC_FOLDLEVELBASE

/-- `LexerRegistry::Fold`: no-op when the fold option is off; otherwise the scan
followed by the unconditional trailing `SetLevel` one line past the span. -/
def RegistryFold (optFold foldCompact : Bool) (doc : List Char) (styles : List Seg)
    (startPos len : Nat) (levels0 : List (Nat × Nat)) : FoldSt :=
  if !optFold then
    { currLine := 0, visibleChars := 0, atKeyPath := false, levels := levels0, events := [] }
  else
    let st := foldScan doc styles foldCompact startPos len levels0
    { st with
        levels := setLevelStore st.levels st.currLine (foldTailLevel st)
        events := st.events ++ [(st.currLine, foldTailLevel st)] }

/-- Replay check: every recorded `SetLevel` call differs from the level stored
for that line at the moment of the call. -/
def WritesDiffer : List (Nat × Nat) → List (Nat × Nat) → Bool
  | [], _ => true
  | (line, lvl) :: rest, levels =>
    (lvl != levelAt levels line) && WritesDiffer rest (setLevelStore levels line lvl)

/-! ### The configuration surface (`LexerRegistry::PropertySet`) -/

/-- The property keys registered by `OptionSetRegistry` via `DefineProperty`. -/
def registryPropertyKeys : List String := ["fold.compact", "fold"]

/-- Modelled from the spec: the property/configuration mechanism (`OptionSet`,
host glue outside the lexer source) looks the key up among the defined
properties; an unrecognized key is a not-found failure, recognized keys
succeed. -/
def OptionSetRegistryPropertySet (key : String) (_val : String) : Bool :=
  registryPropertyKeys.contains key

/-- `LexerRegistry::PropertySet`: 0 on success, -1 as the not-found indication. -/
def RegistryPropertySet (key val : String) : Int :=
  if OptionSetRegistryPropertySet key val then 0 else -1

/-! ### Tiling: segments cover a half-open range contiguously -/

/-- `tilesB segs a b`: the segments cover exactly the positions of `[a, b)`, in
order, with no gaps and no overlaps. -/
def tilesB : List Seg → Nat → Nat → Bool
  | [], a, b => a == b
  | (s, e, _) :: rest, a, b =>
    s == a && decide (a ≤ e) && decide (e < b) && tilesB rest (e + 1) b

/-- Character-window tracking: while the scan is before `endPos`, the current
and next characters agree with the document. -/
def chTrack (doc : List Char) (endPos : Nat) (c : Ctx) : Prop :=
  c.pos < endPos →
    c.ch = SafeGetCharAt doc (c.pos : Int) nulChar ∧
    c.chNext = SafeGetCharAt doc ((c.pos : Int) + 1) nulChar

/-- Invariant of the `Lex` loop used for the coverage theorem.  `N` is the last
position that may be styled plus one (`min endPos doc.length`, which equals
`startPos + length` for an in-document span). -/
structure LexA (doc : List Char) (endPos N startPos : Nat) (c : Ctx) : Prop where
  pos_le : c.pos ≤ endPos
  seg_le_pos : c.startSeg ≤ c.pos
  seg_le_N : c.startSeg ≤ N
  track : chTrack doc endPos c
  tiles : tilesB c.segs startPos c.startSeg = true

/-- Output contract of an iteration stage: the invariant holds, the position
did not move backwards, and it stayed within the stylable range. -/
def WOut (doc : List Char) (endPos N startPos : Nat) (c r : Ctx) : Prop :=
  LexA doc endPos N startPos r ∧ c.pos ≤ r.pos ∧ r.pos ≤ N

/-- Spec-side reading of the GUID body check: `n` consecutive hex-or-hyphen
characters starting at `pos`, with no constraint on where the hyphens sit. -/
def guidCharsFrom (doc : List Char) (pos : Int) (n : Nat) : Bool :=
  Nat.rec (motive := fun _ => Int → Bool) (fun _ => true)
    (fun _ ih pos => guidChar (SafeGetCharAt doc pos ' ') && ih (pos + 1)) n pos

/-- Replay a list of `SetLevel` calls against an initial store. -/
def replayLevels (levels0 : List (Nat × Nat)) : List (Nat × Nat) → List (Nat × Nat)
  | [] => levels0
  | (l, v) :: rest => replayLevels (setLevelStore levels0 l v) rest

/-- The store is the replay of the recorded calls, and every recorded call
differed from the stored value at the moment it was made. -/
def FoldInv (levels0 : List (Nat × Nat)) (st : FoldSt) : Prop :=
  st.levels = replayLevels levels0 st.events ∧ WritesDiffer st.events levels0 = true

theorem tilesB_append {segs : List Seg} {a b e st : Nat}
    (h : tilesB segs a b = true) (hbe : b ≤ e) :
    tilesB (segs ++ [(b, e, st)]) a (e + 1) = true := by
  induction segs generalizing a with
  | nil =>
    simp only [tilesB, beq_iff_eq] at h
    subst h
    simp [tilesB, hbe]
  | cons hd tl ih =>
    obtain ⟨s, ee, st0⟩ := hd
    simp only [tilesB, Bool.and_eq_true, beq_iff_eq, decide_eq_true_eq] at h
    obtain ⟨⟨⟨hs, hae⟩, heb⟩, htl⟩ := h
    have := ih htl
    simp only [List.cons_append, tilesB, Bool.and_eq_true, beq_iff_eq, decide_eq_true_eq]
    exact ⟨⟨⟨hs, hae⟩, by omega⟩, this⟩

/-! ### Projection lemmas for the context operations -/

@[simp] theorem colourTo_pos (c : Ctx) (p : Int) (st : Nat) : (c.colourTo p st).pos = c.pos := by
  unfold Ctx.colourTo; split <;> [rfl; (split <;> rfl)]

@[simp] theorem colourTo_state (c : Ctx) (p : Int) (st : Nat) :
    (c.colourTo p st).state = c.state := by
  unfold Ctx.colourTo; split <;> [rfl; (split <;> rfl)]

@[simp] theorem colourTo_ch (c : Ctx) (p : Int) (st : Nat) : (c.colourTo p st).ch = c.ch := by
  unfold Ctx.colourTo; split <;> [rfl; (split <;> rfl)]

@[simp] theorem colourTo_chNext (c : Ctx) (p : Int) (st : Nat) :
    (c.colourTo p st).chNext = c.chNext := by
  unfold Ctx.colourTo; split <;> [rfl; (split <;> rfl)]

@[simp] theorem colourTo_chPrev (c : Ctx) (p : Int) (st : Nat) :
    (c.colourTo p st).chPrev = c.chPrev := by
  unfold Ctx.colourTo; split <;> [rfl; (split <;> rfl)]

@[simp] theorem colourTo_atLineStart (c : Ctx) (p : Int) (st : Nat) :
    (c.colourTo p st).atLineStart = c.atLineStart := by
  unfold Ctx.colourTo; split <;> [rfl; (split <;> rfl)]

@[simp] theorem colourTo_atLineEnd (c : Ctx) (p : Int) (st : Nat) :
    (c.colourTo p st).atLineEnd = c.atLineEnd := by
  unfold Ctx.colourTo; split <;> [rfl; (split <;> rfl)]

@[simp] theorem colourTo_highlight (c : Ctx) (p : Int) (st : Nat) :
    (c.colourTo p st).highlight = c.highlight := by
  unfold Ctx.colourTo; split <;> [rfl; (split <;> rfl)]

@[simp] theorem colourTo_afterEqualSign (c : Ctx) (p : Int) (st : Nat) :
    (c.colourTo p st).afterEqualSign = c.afterEqualSign := by
  unfold Ctx.colourTo; split <;> [rfl; (split <;> rfl)]

@[simp] theorem colourTo_stateLastNonDefault (c : Ctx) (p : Int) (st : Nat) :
    (c.colourTo p st).stateLastNonDefault = c.stateLastNonDefault := by
  unfold Ctx.colourTo; split <;> [rfl; (split <;> rfl)]

@[simp] theorem colourTo_beforeGUID (c : Ctx) (p : Int) (st : Nat) :
    (c.colourTo p st).beforeGUID = c.beforeGUID := by
  unfold Ctx.colourTo; split <;> [rfl; (split <;> rfl)]

@[simp] theorem colourTo_beforeEscape (c : Ctx) (p : Int) (st : Nat) :
    (c.colourTo p st).beforeEscape = c.beforeEscape := by
  unfold Ctx.colourTo; split <;> [rfl; (split <;> rfl)]

@[simp] theorem setState_pos (c : Ctx) (st : Nat) : (c.setState st).pos = c.pos := by
  unfold Ctx.setState; simp

@[simp] theorem setState_state (c : Ctx) (st : Nat) : (c.setState st).state = st := rfl

@[simp] theorem setState_ch (c : Ctx) (st : Nat) : (c.setState st).ch = c.ch := by
  unfold Ctx.setState; simp

@[simp] theorem setState_chNext (c : Ctx) (st : Nat) : (c.setState st).chNext = c.chNext := by
  unfold Ctx.setState; simp

@[simp] theorem setState_chPrev (c : Ctx) (st : Nat) : (c.setState st).chPrev = c.chPrev := by
  unfold Ctx.setState; simp

@[simp] theorem setState_atLineStart (c : Ctx) (st : Nat) :
    (c.setState st).atLineStart = c.atLineStart := by
  unfold Ctx.setState; simp

@[simp] theorem setState_atLineEnd (c : Ctx) (st : Nat) :
    (c.setState st).atLineEnd = c.atLineEnd := by
  unfold Ctx.setState; simp

@[simp] theorem setState_highlight (c : Ctx) (st : Nat) :
    (c.setState st).highlight = c.highlight := by
  unfold Ctx.setState; simp

@[simp] theorem setState_afterEqualSign (c : Ctx) (st : Nat) :
    (c.setState st).afterEqualSign = c.afterEqualSign := by
  unfold Ctx.setState; simp

@[simp] theorem setState_stateLastNonDefault (c : Ctx) (st : Nat) :
    (c.setState st).stateLastNonDefault = c.stateLastNonDefault := by
  unfold Ctx.setState; simp

@[simp] theorem setState_beforeGUID (c : Ctx) (st : Nat) :
    (c.setState st).beforeGUID = c.beforeGUID := by
  unfold Ctx.setState; simp

@[simp] theorem setState_beforeEscape (c : Ctx) (st : Nat) :
    (c.setState st).beforeEscape = c.beforeEscape := by
  unfold Ctx.setState; simp

@[simp] theorem forward_highlight (doc : List Char) (endPos : Nat) (c : Ctx) :
    (c.forward doc endPos).highlight = c.highlight := by
  unfold Ctx.forward; split <;> rfl

@[simp] theorem forward_afterEqualSign (doc : List Char) (endPos : Nat) (c : Ctx) :
    (c.forward doc endPos).afterEqualSign = c.afterEqualSign := by
  unfold Ctx.forward; split <;> rfl

@[simp] theorem forward_state (doc : List Char) (endPos : Nat) (c : Ctx) :
    (c.forward doc endPos).state = c.state := by
  unfold Ctx.forward; split <;> rfl

@[simp] theorem forward_stateLastNonDefault (doc : List Char) (endPos : Nat) (c : Ctx) :
    (c.forward doc endPos).stateLastNonDefault = c.stateLastNonDefault := by
  unfold Ctx.forward; split <;> rfl

@[simp] theorem forward_beforeGUID (doc : List Char) (endPos : Nat) (c : Ctx) :
    (c.forward doc endPos).beforeGUID = c.beforeGUID := by
  unfold Ctx.forward; split <;> rfl

@[simp] theorem forward_beforeEscape (doc : List Char) (endPos : Nat) (c : Ctx) :
    (c.forward doc endPos).beforeEscape = c.beforeEscape := by
  unfold Ctx.forward; split <;> rfl

@[simp] theorem forward_startSeg (doc : List Char) (endPos : Nat) (c : Ctx) :
    (c.forward doc endPos).startSeg = c.startSeg := by
  unfold Ctx.forward; split <;> rfl

@[simp] theorem forward_segs (doc : List Char) (endPos : Nat) (c : Ctx) :
    (c.forward doc endPos).segs = c.segs := by
  unfold Ctx.forward; split <;> rfl

theorem forwardSetState_eq (doc : List Char) (endPos : Nat) (c : Ctx) (st : Nat) :
    c.forwardSetState doc endPos st = (c.forward doc endPos).setState st := rfl

/-! ### Out-of-range and membership facts about `SafeGetCharAt` -/

theorem charAtD_oob (d : Char) :
    ∀ (doc : List Char) (p : Nat), doc.length ≤ p → charAtD d doc p = d := by
  intro doc
  induction doc with
  | nil =>
    intro p _
    rfl
  | cons hd tl ih =>
    intro p hp
    cases p with
    | zero => simp at hp
    | succ m => exact ih m (by simpa using hp)

theorem charAtD_mem (d : Char) :
    ∀ (doc : List Char) (p : Nat), p < doc.length → charAtD d doc p ∈ doc := by
  intro doc
  induction doc with
  | nil =>
    intro p hp
    simp at hp
  | cons hd tl ih =>
    intro p hp
    cases p with
    | zero => exact List.mem_cons_self hd tl
    | succ m => exact List.mem_cons_of_mem hd (ih m (by simpa using hp))

theorem safeGet_oob (doc : List Char) (p : Nat) (d : Char) (h : doc.length ≤ p) :
    SafeGetCharAt doc (p : Int) d = d := by
  unfold SafeGetCharAt
  rw [if_neg (by omega)]
  exact charAtD_oob d doc p (by simpa using h)

theorem safeGet_ne_nul_lt (doc : List Char) (p : Nat)
    (h : SafeGetCharAt doc (p : Int) nulChar ≠ nulChar) : p < doc.length := by
  by_contra hcon
  exact h (safeGet_oob doc p nulChar (by omega))

theorem safeGet_nul_of_nulFree (doc : List Char) (hNul : ∀ ch ∈ doc, ch ≠ nulChar) (p : Nat)
    (h : SafeGetCharAt doc (p : Int) nulChar = nulChar) : doc.length ≤ p := by
  by_contra hcon
  push_neg at hcon
  have hmem : SafeGetCharAt doc (p : Int) nulChar ∈ doc := by
    unfold SafeGetCharAt
    rw [if_neg (by omega)]
    exact charAtD_mem nulChar doc p (by simpa using hcon)
  exact hNul _ hmem h

/-! ### The scan invariant for coverage -/

theorem LexA_congr {doc : List Char} {endPos N startPos : Nat} {c c' : Ctx}
    (h : LexA doc endPos N startPos c)
    (h1 : c'.pos = c.pos) (h2 : c'.startSeg = c.startSeg) (h3 : c'.segs = c.segs)
    (h4 : c'.ch = c.ch) (h5 : c'.chNext = c.chNext) : LexA doc endPos N startPos c' := by
  obtain ⟨p1, p2, p3, p4, p5⟩ := h
  refine ⟨?_, ?_, ?_, ?_, ?_⟩
  · rw [h1]; exact p1
  · rw [h2, h1]; exact p2
  · rw [h2]; exact p3
  · intro hlt
    rw [h1] at hlt
    obtain ⟨t1, t2⟩ := p4 hlt
    exact ⟨by rw [h4, h1]; exact t1, by rw [h5, h1]; exact t2⟩
  · rw [h3, h2]; exact p5

theorem setState_A {doc : List Char} {endPos N startPos : Nat} {c : Ctx}
    (h : LexA doc endPos N startPos c) (hp : c.pos ≤ N) (st : Nat) :
    LexA doc endPos N startPos (c.setState st) := by
  obtain ⟨p1, p2, p3, p4, p5⟩ := h
  unfold Ctx.setState Ctx.colourTo
  split
  · exact LexA_congr ⟨p1, p2, p3, p4, p5⟩ rfl rfl rfl rfl rfl
  · rename_i hne
    split
    · exact LexA_congr ⟨p1, p2, p3, p4, p5⟩ rfl rfl rfl rfl rfl
    · rename_i hge
      push_neg at hge
      have hpos1 : 1 ≤ c.pos := by omega
      have htn : ((c.pos : Int) - 1).toNat = c.pos - 1 := by omega
      refine ⟨by simpa using p1, ?_, ?_, ?_, ?_⟩
      · simp only [htn]; omega
      · simp only [htn]; omega
      · intro hlt
        exact p4 (by simpa using hlt)
      · simp only [htn]
        have happ := @tilesB_append c.segs startPos c.startSeg (c.pos - 1) c.state p5 (by omega)
        have : c.pos - 1 + 1 = c.pos := by omega
        rw [this] at happ
        simpa [this] using happ

theorem forward_A {doc : List Char} {endPos N startPos : Nat} {c : Ctx}
    (h : LexA doc endPos N startPos c) :
    LexA doc endPos N startPos (c.forward doc endPos) ∧ c.pos ≤ (c.forward doc endPos).pos := by
  obtain ⟨p1, p2, p3, p4, p5⟩ := h
  unfold Ctx.forward
  split
  · rename_i hlt
    obtain ⟨t1, t2⟩ := p4 hlt
    refine ⟨⟨by simpa using hlt, ?_, p3, ?_, by simpa using p5⟩, ?_⟩
    · show c.startSeg ≤ c.pos + 1
      omega
    · intro hlt2
      refine ⟨?_, rfl⟩
      show c.chNext = SafeGetCharAt doc ((c.pos + 1 : Nat) : Int) nulChar
      rw [t2]
      norm_cast
    · show c.pos ≤ c.pos + 1
      omega
  · rename_i hge
    refine ⟨⟨by simpa using p1, by simpa using p2, p3, ?_, by simpa using p5⟩, le_refl _⟩
    intro hlt2
    exact absurd hlt2 hge

theorem forward_pos_bound {doc : List Char} {endPos N startPos : Nat} {c : Ctx}
    (h : LexA doc endPos N startPos c) (hN : N = min endPos doc.length)
    (hp : c.pos ≤ N) (hch : c.ch ≠ nulChar) :
    (c.forward doc endPos).pos ≤ N := by
  obtain ⟨p1, p2, p3, p4, p5⟩ := h
  unfold Ctx.forward
  split
  · rename_i hlt
    obtain ⟨t1, _⟩ := p4 hlt
    have : c.pos < doc.length := safeGet_ne_nul_lt doc c.pos (by rw [← t1]; exact hch)
    simp only
    omega
  · simpa using hp

theorem forward_pos_le_succ (doc : List Char) (endPos : Nat) (c : Ctx) :
    (c.forward doc endPos).pos ≤ c.pos + 1 := by
  unfold Ctx.forward; split <;> simp

theorem forward_pos_cases (doc : List Char) (endPos : Nat) (c : Ctx) :
    (c.forward doc endPos).pos = if c.pos < endPos then c.pos + 1 else c.pos := by
  unfold Ctx.forward; split <;> simp_all

theorem fss_A {doc : List Char} {endPos N startPos : Nat} {c : Ctx} {st : Nat}
    (h : LexA doc endPos N startPos c) (hN : N = min endPos doc.length)
    (hp : c.pos ≤ N) (hguard : c.ch ≠ nulChar ∨ c.pos < N) :
    LexA doc endPos N startPos (c.forwardSetState doc endPos st) ∧
    c.pos ≤ (c.forwardSetState doc endPos st).pos ∧
    (c.forwardSetState doc endPos st).pos ≤ N := by
  rw [forwardSetState_eq]
  obtain ⟨hA, hmono⟩ := forward_A h
  have hbound : (c.forward doc endPos).pos ≤ N := by
    rcases hguard with hch | hlt
    · exact forward_pos_bound h hN hp hch
    · have := forward_pos_le_succ doc endPos c
      omega
  exact ⟨setState_A hA hbound st, by simpa using hmono, by simpa using hbound⟩

theorem forward_strict {doc : List Char} {endPos : Nat} {c : Ctx} (hlt : c.pos < endPos) :
    c.pos < (c.forward doc endPos).pos := by
  have := forward_pos_cases doc endPos c
  rw [if_pos hlt] at this
  omega

theorem cfss_some_eq (doc : List Char) (endPos : Nat) (c : Ctx) (st : Nat) :
    contextForwardSetState doc endPos c (some st) =
      (if c.state ≠ SCE_REG_DEFAULT then { c with stateLastNonDefault := c.state } else
        c).forwardSetState doc endPos st := by
  unfold contextForwardSetState
  split <;> rfl

theorem cfss_none_eq (doc : List Char) (endPos : Nat) (c : Ctx) :
    contextForwardSetState doc endPos c none =
      (if c.state ≠ SCE_REG_DEFAULT then { c with stateLastNonDefault := c.state } else
        c).forward doc endPos := by
  unfold contextForwardSetState
  split <;> rfl

theorem cfss_some_A {doc : List Char} {endPos N startPos : Nat} {c : Ctx} {st : Nat}
    (h : LexA doc endPos N startPos c) (hN : N = min endPos doc.length)
    (hp : c.pos ≤ N) (hguard : c.ch ≠ nulChar ∨ c.pos < N) :
    LexA doc endPos N startPos (contextForwardSetState doc endPos c (some st)) ∧
    c.pos ≤ (contextForwardSetState doc endPos c (some st)).pos ∧
    (contextForwardSetState doc endPos c (some st)).pos ≤ N := by
  rw [cfss_some_eq]
  split
  · exact fss_A (LexA_congr h rfl rfl rfl rfl rfl) hN hp hguard
  · exact fss_A h hN hp hguard

theorem cfss_none_A {doc : List Char} {endPos N startPos : Nat} {c : Ctx}
    (h : LexA doc endPos N startPos c) :
    LexA doc endPos N startPos (contextForwardSetState doc endPos c none) ∧
    c.pos ≤ (contextForwardSetState doc endPos c none).pos ∧
    (c.pos < endPos → c.pos < (contextForwardSetState doc endPos c none).pos) := by
  rw [cfss_none_eq]
  split
  · have hA1 : LexA doc endPos N startPos { c with stateLastNonDefault := c.state } :=
      LexA_congr h rfl rfl rfl rfl rfl
    obtain ⟨hA, hmono⟩ := forward_A hA1
    exact ⟨hA, hmono,
      fun hlt => @forward_strict doc endPos { c with stateLastNonDefault := c.state } hlt⟩
  · obtain ⟨hA, hmono⟩ := forward_A h
    exact ⟨hA, hmono, fun hlt => forward_strict hlt⟩

theorem lineStartCheck_W {doc : List Char} {endPos N startPos : Nat} {c : Ctx}
    (h : LexA doc endPos N startPos c) (hp : c.pos ≤ N) :
    LexA doc endPos N startPos (lineStartCheck doc c) ∧
    (lineStartCheck doc c).pos = c.pos ∧
    (lineStartCheck doc c).ch = c.ch ∧
    (lineStartCheck doc c).chNext = c.chNext ∧
    (lineStartCheck doc c).atLineEnd = c.atLineEnd := by
  by_cases hstart : c.atLineStart = true
  · cases hcont : IsPrevNonWhitespace doc (c.pos : Int) '\\' with
    | false =>
      have hres : lineStartCheck doc c =
          { Ctx.setState { c with highlight := false } SCE_REG_DEFAULT with
              stateLastNonDefault := SCE_REG_DEFAULT } := by
        unfold lineStartCheck
        rw [if_pos hstart, hcont]
        rfl
      rw [hres]
      have hA1 : LexA doc endPos N startPos { c with highlight := false } :=
        LexA_congr h rfl rfl rfl rfl rfl
      refine ⟨LexA_congr (setState_A hA1 hp SCE_REG_DEFAULT) rfl rfl rfl rfl rfl,
        ?_, ?_, ?_, ?_⟩ <;> simp
    | true =>
      have hres : lineStartCheck doc c = { c with highlight := true } := by
        unfold lineStartCheck
        rw [if_pos hstart, hcont]
        rfl
      rw [hres]
      exact ⟨LexA_congr h rfl rfl rfl rfl rfl, rfl, rfl, rfl, rfl⟩
  · have hres : lineStartCheck doc c = c := by
      unfold lineStartCheck
      rw [if_neg hstart]
    rw [hres]
    exact ⟨h, rfl, rfl, rfl, rfl⟩

theorem caseComment_W {doc : List Char} {endPos N startPos : Nat} {c : Ctx}
    (h : LexA doc endPos N startPos c) (hp : c.pos ≤ N) :
    WOut doc endPos N startPos c (caseComment c) := by
  unfold caseComment
  split
  · exact ⟨setState_A h hp _, by simp, by simpa using hp⟩
  · exact ⟨h, le_refl _, hp⟩

theorem caseStringMain_W {doc : List Char} {endPos N startPos : Nat} {c : Ctx}
    (h : LexA doc endPos N startPos c) (hN : N = min endPos doc.length) (hp : c.pos < N) :
    WOut doc endPos N startPos c (caseStringMain doc endPos c) := by
  unfold caseStringMain
  split
  · exact cfss_some_A h hN (le_of_lt hp) (Or.inr hp)
  · split
    · have hA1 : LexA doc endPos N startPos { c with beforeEscape := c.state } :=
        LexA_congr h rfl rfl rfl rfl rfl
      have hA2 := setState_A hA1 (le_of_lt hp) SCE_REG_ESCAPED
      obtain ⟨hA3, hm⟩ := forward_A hA2
      refine ⟨hA3, by simpa using hm, ?_⟩
      have hsucc := forward_pos_le_succ doc endPos
        (Ctx.setState { c with beforeEscape := c.state } SCE_REG_ESCAPED)
      have hps : (Ctx.setState { c with beforeEscape := c.state } SCE_REG_ESCAPED).pos = c.pos :=
        by simp
      omega
    · split
      · split
        · have hA1 : LexA doc endPos N startPos { c with beforeGUID := c.state } :=
            LexA_congr h rfl rfl rfl rfl rfl
          exact ⟨setState_A hA1 (le_of_lt hp) _, by simp, by simp; omega⟩
        · exact ⟨h, le_refl _, le_of_lt hp⟩
      · exact ⟨h, le_refl _, le_of_lt hp⟩

theorem caseStringTail_W {doc : List Char} {endPos N startPos : Nat} {c : Ctx}
    (h : LexA doc endPos N startPos c) (hp : c.pos ≤ N) :
    WOut doc endPos N startPos c (caseStringTail c) := by
  unfold caseStringTail
  split
  · exact ⟨setState_A h hp _, by simp, by simpa using hp⟩
  · exact ⟨h, le_refl _, hp⟩

theorem caseParameterTail_W {doc : List Char} {endPos N startPos : Nat} {c : Ctx}
    (h : LexA doc endPos N startPos c) (hN : N = min endPos doc.length) (hp : c.pos ≤ N) :
    WOut doc endPos N startPos c (caseParameterTail doc endPos c) := by
  unfold caseParameterTail
  split
  · rename_i hcond
    have hcheq : c.ch = '"' := by simpa using hcond
    exact cfss_some_A h hN hp (Or.inl (by rw [hcheq]; decide))
  · exact ⟨h, le_refl _, hp⟩

theorem caseValueType_W {doc : List Char} {endPos N startPos : Nat} {c : Ctx}
    (h : LexA doc endPos N startPos c) (hp : c.pos ≤ N) :
    WOut doc endPos N startPos c (caseValueType c) := by
  unfold caseValueType
  split
  · exact ⟨LexA_congr (setState_A h hp SCE_REG_DEFAULT) rfl rfl rfl rfl rfl,
      by simp, by simpa using hp⟩
  · exact ⟨h, le_refl _, hp⟩

theorem caseKeyPath_W {doc : List Char} {endPos N startPos : Nat} {c : Ctx}
    (h : LexA doc endPos N startPos c) (hN : N = min endPos doc.length) (hp : c.pos < N) :
    WOut doc endPos N startPos c (caseKeyPath doc endPos c) := by
  unfold caseKeyPath
  split
  · exact cfss_some_A h hN (le_of_lt hp) (Or.inr hp)
  · split
    · split
      · have hA1 : LexA doc endPos N startPos { c with beforeGUID := c.state } :=
          LexA_congr h rfl rfl rfl rfl rfl
        exact ⟨setState_A hA1 (le_of_lt hp) _, by simp, by simp; omega⟩
      · exact ⟨h, le_refl _, le_of_lt hp⟩
    · exact ⟨h, le_refl _, le_of_lt hp⟩

theorem caseEscaped_W {doc : List Char} {endPos N startPos : Nat} {c : Ctx}
    (h : LexA doc endPos N startPos c) (hN : N = min endPos doc.length) (hp : c.pos < N) :
    WOut doc endPos N startPos c (caseEscaped doc endPos c) := by
  unfold caseEscaped
  split
  · have hA1 := setState_A h (le_of_lt hp) c.beforeEscape
    obtain ⟨hA2, hm2, hb2⟩ := cfss_some_A hA1 hN (by simpa using le_of_lt hp)
      (Or.inr (by simpa using hp))
    exact ⟨hA2, by simpa using hm2, hb2⟩
  · split
    · obtain ⟨hA1, hm1⟩ := forward_A h
      have hsucc := forward_pos_le_succ doc endPos c
      exact ⟨hA1, hm1, by omega⟩
    · exact ⟨LexA_congr (setState_A h (le_of_lt hp) c.beforeEscape) rfl rfl rfl rfl rfl,
        by simp, by simp; omega⟩

theorem caseGuidBrace_W {doc : List Char} {endPos N startPos : Nat} {c : Ctx}
    (h : LexA doc endPos N startPos c) (hN : N = min endPos doc.length) (hp : c.pos < N) :
    WOut doc endPos N startPos c (caseGuidBrace doc endPos c) := by
  unfold caseGuidBrace
  split
  · obtain ⟨hA1, hm1, hb1⟩ := cfss_some_A h hN (le_of_lt hp) (Or.inr hp)
    exact ⟨LexA_congr hA1 rfl rfl rfl rfl rfl, by simpa using hm1, by simpa using hb1⟩
  · exact ⟨h, le_refl _, le_of_lt hp⟩

theorem caseGuidTail_W {doc : List Char} {endPos N startPos : Nat} {c : Ctx}
    (h : LexA doc endPos N startPos c) (hN : N = min endPos doc.length) (hp : c.pos ≤ N) :
    WOut doc endPos N startPos c (caseGuidTail doc endPos c) := by
  unfold caseGuidTail
  split
  · rename_i hcond
    have hcheq : c.ch = '"' := by
      rw [Bool.and_eq_true] at hcond
      simpa using hcond.1
    exact cfss_some_A h hN hp (Or.inl (by rw [hcheq]; decide))
  · split
    · rename_i hprev hcond
      have hcheq : c.ch = ']' := by
        rw [Bool.and_eq_true] at hcond
        simpa using hcond.1
      split
      · exact cfss_some_A h hN hp (Or.inl (by rw [hcheq]; decide))
      · exact cfss_some_A h hN hp (Or.inl (by rw [hcheq]; decide))
    · split
      · rename_i hprev1 hprev2 hcond
        have hcheq : c.ch = '\\' := by
          rw [Bool.and_eq_true] at hcond
          simpa using hcond.1
        have hA1 : LexA doc endPos N startPos { c with beforeEscape := c.state } :=
          LexA_congr h rfl rfl rfl rfl rfl
        have hA2 := setState_A hA1 hp SCE_REG_ESCAPED
        obtain ⟨hA3, hm3⟩ := forward_A hA2
        refine ⟨hA3, by simpa using hm3, ?_⟩
        have hbound := forward_pos_bound hA2 hN (by simpa using hp)
          (by simp only [setState_ch]; rw [show ({ c with beforeEscape := c.state } : Ctx).ch =
            c.ch from rfl, hcheq]; decide)
        exact hbound
      · exact ⟨h, le_refl _, hp⟩

theorem switchStep_W {doc : List Char} {endPos N startPos : Nat} {c : Ctx}
    (h : LexA doc endPos N startPos c) (hN : N = min endPos doc.length) (hp : c.pos < N) :
    WOut doc endPos N startPos c (switchStep doc endPos c) := by
  unfold switchStep
  split
  · exact caseComment_W h (le_of_lt hp)
  · split
    · obtain ⟨hA1, hm1, hb1⟩ := caseStringMain_W h hN hp
      obtain ⟨hA2, hm2, hb2⟩ := caseStringTail_W hA1 hb1
      exact ⟨hA2, le_trans hm1 hm2, hb2⟩
    · split
      · obtain ⟨hA1, hm1, hb1⟩ := cfss_some_A h hN (le_of_lt hp) (Or.inr hp)
        obtain ⟨hA2, hm2, hb2⟩ := caseParameterTail_W hA1 hN hb1
        exact ⟨hA2, le_trans hm1 hm2, hb2⟩
      · split
        · exact caseValueType_W h (le_of_lt hp)
        · split
          · exact ⟨setState_A h (le_of_lt hp) _, by simp, by simp; omega⟩
          · split
            · exact caseKeyPath_W h hN hp
            · split
              · exact caseEscaped_W h hN hp
              · split
                · obtain ⟨hA1, hm1, hb1⟩ := caseGuidBrace_W h hN hp
                  obtain ⟨hA2, hm2, hb2⟩ := caseGuidTail_W hA1 hN hb1
                  exact ⟨hA2, le_trans hm1 hm2, hb2⟩
                · exact ⟨h, le_refl _, le_of_lt hp⟩

theorem entryMain_W {doc : List Char} {endPos N startPos : Nat} {c : Ctx}
    (h : LexA doc endPos N startPos c) (hp : c.pos ≤ N) :
    WOut doc endPos N startPos c (entryMain doc c) ∧ (entryMain doc c).pos = c.pos := by
  have hS : ∀ st : Nat, WOut doc endPos N startPos c (c.setState st) ∧
      (c.setState st).pos = c.pos :=
    fun st => ⟨⟨setState_A h hp st, by simp, by simpa using hp⟩, by simp⟩
  have hId : WOut doc endPos N startPos c c ∧ c.pos = c.pos := ⟨⟨h, le_refl _, hp⟩, rfl⟩
  unfold entryMain
  split
  · exact hS _
  · split
    · split
      · exact hS _
      · exact hS _
    · split
      · split
        · exact hS _
        · exact hS _
      · split
        · exact ⟨⟨LexA_congr h rfl rfl rfl rfl rfl, le_refl _, hp⟩, rfl⟩
        · split
          · split
            · exact hS _
            · exact hId
          · split
            · exact hS _
            · exact hId

theorem entryAt_W {doc : List Char} {endPos N startPos : Nat} {c : Ctx}
    (h : LexA doc endPos N startPos c) (hp : c.pos ≤ N) :
    WOut doc endPos N startPos c (entryAt c) ∧ (entryAt c).pos = c.pos := by
  unfold entryAt
  split
  · exact ⟨⟨LexA_congr h rfl rfl rfl rfl rfl, le_refl _, hp⟩, rfl⟩
  · exact ⟨⟨h, le_refl _, hp⟩, rfl⟩

theorem entryOperator_W {doc : List Char} {endPos N startPos : Nat} {c : Ctx}
    (h : LexA doc endPos N startPos c) (hp : c.pos ≤ N) :
    WOut doc endPos N startPos c (entryOperator c) ∧ (entryOperator c).pos = c.pos := by
  unfold entryOperator
  split
  · exact ⟨⟨setState_A h hp _, by simp, by simpa using hp⟩, by simp⟩
  · exact ⟨⟨h, le_refl _, hp⟩, rfl⟩

theorem entryEol_W {doc : List Char} {endPos N startPos : Nat} {c : Ctx}
    (h : LexA doc endPos N startPos c) (hp : c.pos ≤ N) :
    WOut doc endPos N startPos c (entryEol c) ∧ (entryEol c).pos = c.pos := by
  unfold entryEol
  split
  · exact ⟨⟨setState_A h hp _, by simp, by simpa using hp⟩, by simp⟩
  · exact ⟨⟨h, le_refl _, hp⟩, rfl⟩

theorem defaultEntry_W {doc : List Char} {endPos N startPos : Nat} {c : Ctx}
    (h : LexA doc endPos N startPos c) (hp : c.pos ≤ N) :
    WOut doc endPos N startPos c (defaultEntry doc c) := by
  unfold defaultEntry
  split
  · obtain ⟨⟨hA1, hm1, hb1⟩, _⟩ := entryMain_W h hp
    obtain ⟨⟨hA2, hm2, hb2⟩, _⟩ := entryAt_W hA1 hb1
    obtain ⟨⟨hA3, hm3, hb3⟩, _⟩ := entryOperator_W hA2 hb2
    obtain ⟨⟨hA4, hm4, hb4⟩, _⟩ := entryEol_W hA3 hb3
    exact ⟨hA4, le_trans hm1 (le_trans hm2 (le_trans hm3 hm4)), hb4⟩
  · exact ⟨h, le_refl _, hp⟩

theorem lexStep_inv {doc : List Char} {endPos N startPos : Nat} {c : Ctx}
    (h : LexA doc endPos N startPos c) (hN : N = min endPos doc.length)
    (hlt : c.pos < endPos) (hch : c.ch ≠ nulChar) :
    LexA doc endPos N startPos (lexStep doc endPos c) ∧ c.pos < (lexStep doc endPos c).pos := by
  have htrack := h.track hlt
  have hdl : c.pos < doc.length := safeGet_ne_nul_lt doc c.pos (by rw [← htrack.1]; exact hch)
  have hpN : c.pos < N := by omega
  obtain ⟨hA1, hpos1, hch1, hchn1, hle1⟩ := lineStartCheck_W h (le_of_lt hpN)
  obtain ⟨hA2, hm2, hb2⟩ := switchStep_W hA1 hN (by rw [hpos1]; exact hpN)
  obtain ⟨hA3, hm3, hb3⟩ := defaultEntry_W hA2 hb2
  obtain ⟨hA4, hm4, hstrict⟩ := cfss_none_A hA3
  unfold lexStep
  refine ⟨hA4, ?_⟩
  by_cases hc3 : (defaultEntry doc (switchStep doc endPos (lineStartCheck doc c))).pos < endPos
  · have := hstrict hc3
    omega
  · push_neg at hc3
    omega

theorem lexLoop_A {doc : List Char} {endPos N startPos : Nat}
    (hN : N = min endPos doc.length) :
    ∀ (fuel : Nat) (c : Ctx), LexA doc endPos N startPos c → endPos - c.pos ≤ fuel →
      LexA doc endPos N startPos (lexLoop doc endPos fuel c) ∧
      ¬((lexLoop doc endPos fuel c).pos < endPos ∧ (lexLoop doc endPos fuel c).ch ≠ nulChar) := by
  intro fuel
  induction fuel with
  | zero =>
    intro c hA hf
    show LexA doc endPos N startPos c ∧ ¬(c.pos < endPos ∧ c.ch ≠ nulChar)
    refine ⟨hA, ?_⟩
    intro hcon
    have := hcon.1
    omega
  | succ n ih =>
    intro c hA hf
    rw [show lexLoop doc endPos (n + 1) c =
      (if c.pos < endPos ∧ c.ch ≠ nulChar then lexLoop doc endPos n (lexStep doc endPos c)
       else c) from rfl]
    split
    · rename_i hguard
      obtain ⟨hA2, hstrict⟩ := lexStep_inv hA hN hguard.1 hguard.2
      exact ih (lexStep doc endPos c) hA2 (by omega)
    · rename_i hguard
      exact ⟨hA, hguard⟩

/-- Coverage of `LexerRegistry::Lex`: for a NUL-free document and a span inside
the document, the styled segments tile exactly `[startPos, startPos + len)`. -/
theorem registryLex_covers (doc : List Char) (startPos len initStyle : Nat)
    (hNul : ∀ ch ∈ doc, ch ≠ nulChar) (hle : startPos + len ≤ doc.length) :
    tilesB (RegistryLex doc startPos len initStyle).segs startPos (startPos + len) = true := by
  set N := startPos + len with hNdef
  set endPos := lexEndPos doc.length startPos len with hEdef
  have hEnd : endPos = N ∨ (endPos = N + 1 ∧ N = doc.length) := by
    rw [hEdef]
    unfold lexEndPos
    by_cases hq : startPos + len = doc.length
    · right
      rw [if_pos (by simpa using hq)]
      omega
    · left
      rw [if_neg (by simpa using hq)]
  have hN : N = min endPos doc.length := by
    rcases hEnd with h1 | ⟨h1, h2⟩ <;> omega
  have hA0 : LexA doc endPos N startPos (lexInit doc startPos initStyle) := by
    refine ⟨?_, le_refl _, ?_, ?_, ?_⟩
    · show startPos ≤ endPos
      omega
    · show startPos ≤ N
      omega
    · intro _
      exact ⟨rfl, rfl⟩
    · show tilesB [] startPos startPos = true
      simp [tilesB]
  obtain ⟨hAr, hexit⟩ := lexLoop_A hN (endPos + 1) (lexInit doc startPos initStyle) hA0 (by omega)
  set r := lexLoop doc endPos (endPos + 1) (lexInit doc startPos initStyle) with hrdef
  have hdisj : r.pos = endPos ∨ (doc.length ≤ r.pos ∧ r.pos < endPos) := by
    by_cases hplt : r.pos < endPos
    · right
      have hchn : r.ch = nulChar := by
        by_contra hcon
        exact hexit ⟨hplt, hcon⟩
      have htr := hAr.track hplt
      exact ⟨safeGet_nul_of_nulFree doc hNul r.pos (by rw [← htr.1]; exact hchn), hplt⟩
    · left
      exact le_antisymm hAr.pos_le (not_lt.mp hplt)
  have htarget :
      ((r.pos : Int) - (if (doc.length : Int) < (r.pos : Int) then 2 else 1)) = (N : Int) - 1 := by
    rcases hdisj with h1 | ⟨hge, hlt2⟩ <;> rcases hEnd with he | ⟨he, hNdl⟩ <;>
      split_ifs with hcond <;> omega
  show tilesB (ctxComplete doc r).segs startPos N = true
  unfold ctxComplete
  rw [htarget]
  have hsegN := hAr.seg_le_N
  have htiles := hAr.tiles
  unfold Ctx.colourTo
  split
  · rename_i hc1
    rw [beq_iff_eq] at hc1
    have hs : r.startSeg = N := by omega
    rw [← hs]
    exact htiles
  · split
    · rename_i hc1 hc2
      simp only [beq_iff_eq] at hc1
      exfalso
      omega
    · rename_i hc1 hc2
      push_neg at hc2
      have hN1 : 1 ≤ N := by omega
      have hbe : r.startSeg ≤ N - 1 := by omega
      have happ := @tilesB_append r.segs startPos r.startSeg (N - 1) r.state htiles hbe
      have htn : ((N : Int) - 1).toNat = N - 1 := by omega
      show tilesB (r.segs ++ [(r.startSeg, ((N : Int) - 1).toNat, r.state)]) startPos N = true
      rw [htn]
      have : N - 1 + 1 = N := by omega
      rw [this] at happ
      exact happ

/-! ### Characterization of the GUID shape check -/

theorem atGUIDgroup_eq (doc : List Char) (start : Int) :
    ∀ (n offset : Nat), atGUIDgroup doc start offset n =
      if guidCharsFrom doc (start + (offset : Int)) n then some (offset + n) else none := by
  intro n
  induction n with
  | zero =>
    intro offset
    simp [atGUIDgroup, guidCharsFrom]
  | succ m ih =>
    intro offset
    rw [show atGUIDgroup doc start offset (m + 1) =
      (if guidChar (SafeGetCharAt doc (start + (offset : Int)) ' ') then
        atGUIDgroup doc start (offset + 1) m else none) from rfl]
    rw [show guidCharsFrom doc (start + (offset : Int)) (m + 1) =
      (guidChar (SafeGetCharAt doc (start + (offset : Int)) ' ') &&
        guidCharsFrom doc (start + (offset : Int) + 1) m) from rfl]
    by_cases hg : guidChar (SafeGetCharAt doc (start + (offset : Int)) ' ') = true
    · rw [if_pos hg, hg, Bool.true_and, ih (offset + 1)]
      have hcast : start + ((offset + 1 : Nat) : Int) = start + (offset : Int) + 1 := by
        push_cast
        ring
      rw [hcast]
      have harith : offset + 1 + m = offset + (m + 1) := by omega
      rw [harith]
    · have hg' : guidChar (SafeGetCharAt doc (start + (offset : Int)) ' ') = false := by
        revert hg
        cases guidChar (SafeGetCharAt doc (start + (offset : Int)) ' ') <;> simp
      rw [if_neg hg, hg', Bool.false_and]
      simp

theorem guidCharsFrom_append (doc : List Char) :
    ∀ (m n : Nat) (pos : Int), guidCharsFrom doc pos (m + n) =
      (guidCharsFrom doc pos m && guidCharsFrom doc (pos + (m : Int)) n) := by
  intro m
  induction m with
  | zero =>
    intro n pos
    simp [guidCharsFrom]
  | succ k ih =>
    intro n pos
    have h1 : k + 1 + n = (k + n) + 1 := by omega
    rw [h1]
    rw [show guidCharsFrom doc pos ((k + n) + 1) =
      (guidChar (SafeGetCharAt doc pos ' ') && guidCharsFrom doc (pos + 1) (k + n)) from rfl]
    rw [show guidCharsFrom doc pos (k + 1) =
      (guidChar (SafeGetCharAt doc pos ' ') && guidCharsFrom doc (pos + 1) k) from rfl]
    rw [ih n (pos + 1), Bool.and_assoc]
    have hcast : pos + 1 + (k : Int) = pos + ((k + 1 : Nat) : Int) := by
      push_cast
      ring
    rw [hcast]

/-- The GUID-shape check accepts exactly 36 hex-or-hyphen characters after the
brace followed by a closing `}`: only group lengths are enforced, hyphens may
sit anywhere. -/
theorem AtGUID_eq (doc : List Char) (start : Int) :
    AtGUID doc start =
      (guidCharsFrom doc (start + 1) 36 && (SafeGetCharAt doc (start + 37) ' ' == '}')) := by
  have hg1 := atGUIDgroup_eq doc start 8 1
  have hg2 := atGUIDgroup_eq doc start 5 9
  have hg3 := atGUIDgroup_eq doc start 5 14
  have hg4 := atGUIDgroup_eq doc start 5 19
  have hg5 := atGUIDgroup_eq doc start 13 24
  norm_num at hg1 hg2 hg3 hg4 hg5
  have e36 : guidCharsFrom doc (start + 1) 36 =
      (guidCharsFrom doc (start + 1) 8 &&
       (guidCharsFrom doc (start + 9) 5 &&
        (guidCharsFrom doc (start + 14) 5 &&
         (guidCharsFrom doc (start + 19) 5 &&
          guidCharsFrom doc (start + 24) 13)))) := by
    rw [show (36 : Nat) = 8 + (5 + (5 + (5 + 13))) from by norm_num]
    rw [guidCharsFrom_append, guidCharsFrom_append, guidCharsFrom_append, guidCharsFrom_append]
    push_cast
    ring_nf
  rw [e36]
  show (match atGUIDgroup doc start 1 8 with
        | none => false
        | some off => atGUIDfrom doc start 4 5 off) = _
  rw [hg1]
  by_cases b1 : guidCharsFrom doc (start + 1) 8 = true
  case neg =>
    have b1f : guidCharsFrom doc (start + 1) 8 = false := by
      revert b1
      cases guidCharsFrom doc (start + 1) 8 <;> simp
    rw [if_neg b1]
    simp [b1f]
  rw [if_pos b1, b1]
  show (match atGUIDgroup doc start 9 5 with
        | none => false
        | some off => atGUIDfrom doc start 3 5 off) = _
  rw [hg2]
  by_cases b2 : guidCharsFrom doc (start + 9) 5 = true
  case neg =>
    have b2f : guidCharsFrom doc (start + 9) 5 = false := by
      revert b2
      cases guidCharsFrom doc (start + 9) 5 <;> simp
    rw [if_neg b2]
    simp [b2f]
  rw [if_pos b2, b2]
  show (match atGUIDgroup doc start 14 5 with
        | none => false
        | some off => atGUIDfrom doc start 2 5 off) = _
  rw [hg3]
  by_cases b3 : guidCharsFrom doc (start + 14) 5 = true
  case neg =>
    have b3f : guidCharsFrom doc (start + 14) 5 = false := by
      revert b3
      cases guidCharsFrom doc (start + 14) 5 <;> simp
    rw [if_neg b3]
    simp [b3f]
  rw [if_pos b3, b3]
  show (match atGUIDgroup doc start 19 5 with
        | none => false
        | some off => atGUIDfrom doc start 1 13 off) = _
  rw [hg4]
  by_cases b4 : guidCharsFrom doc (start + 19) 5 = true
  case neg =>
    have b4f : guidCharsFrom doc (start + 19) 5 = false := by
      revert b4
      cases guidCharsFrom doc (start + 19) 5 <;> simp
    rw [if_neg b4]
    simp [b4f]
  rw [if_pos b4, b4]
  show (match atGUIDgroup doc start 24 13 with
        | none => false
        | some off => atGUIDfrom doc start 0 5 off) = _
  rw [hg5]
  by_cases b5 : guidCharsFrom doc (start + 24) 13 = true
  case neg =>
    have b5f : guidCharsFrom doc (start + 24) 13 = false := by
      revert b5
      cases guidCharsFrom doc (start + 24) 13 <;> simp
    rw [if_neg b5]
    simp [b5f]
  rw [if_pos b5, b5]
  show (SafeGetCharAt doc (start + ((37 : Nat) : Int)) ' ' == '}') = _
  simp

/-! ### The conditional-write discipline of the fold loop -/

theorem replayLevels_append :
    ∀ (evs levels0 : List (Nat × Nat)) (l v : Nat),
      replayLevels levels0 (evs ++ [(l, v)]) = setLevelStore (replayLevels levels0 evs) l v := by
  intro evs
  induction evs with
  | nil =>
    intro levels0 l v
    rfl
  | cons hd tl ih =>
    intro levels0 l v
    obtain ⟨hl, hv⟩ := hd
    exact ih (setLevelStore levels0 hl hv) l v

theorem WritesDiffer_append :
    ∀ (evs levels0 : List (Nat × Nat)) (l v : Nat),
      WritesDiffer (evs ++ [(l, v)]) levels0 =
        (WritesDiffer evs levels0 && (v != levelAt (replayLevels levels0 evs) l)) := by
  intro evs
  induction evs with
  | nil =>
    intro levels0 l v
    show ((v != levelAt levels0 l) && WritesDiffer [] (setLevelStore levels0 l v)) = _
    simp [WritesDiffer, replayLevels]
  | cons hd tl ih =>
    intro levels0 l v
    obtain ⟨hl, hv⟩ := hd
    show ((hv != levelAt levels0 hl) && WritesDiffer (tl ++ [(l, v)])
        (setLevelStore levels0 hl hv)) = _
    rw [ih]
    show _ = (((hv != levelAt levels0 hl) && WritesDiffer tl (setLevelStore levels0 hl hv)) &&
        (v != levelAt (replayLevels (setLevelStore levels0 hl hv) tl) l))
    rw [Bool.and_assoc]

theorem foldKeyPathUpd_inv {levels0 : List (Nat × Nat)} {styles : List Seg} {i : Nat}
    {st : FoldSt} (h : FoldInv levels0 st) : FoldInv levels0 (foldKeyPathUpd styles i st) := by
  unfold foldKeyPathUpd
  split
  · exact h
  · exact h

theorem foldVisible_inv {levels0 : List (Nat × Nat)} {curr : Char} {st : FoldSt}
    (h : FoldInv levels0 st) : FoldInv levels0 (foldVisible curr st) := by
  unfold foldVisible
  split
  · exact h
  · exact h

theorem foldEmit_inv {levels0 : List (Nat × Nat)} {st : FoldSt} (h : FoldInv levels0 st)
    (level : Nat) : FoldInv levels0 (foldEmit st level) := by
  unfold foldEmit
  split
  · rename_i hne
    obtain ⟨h1, h2⟩ := h
    constructor
    · show setLevelStore st.levels st.currLine level =
        replayLevels levels0 (st.events ++ [(st.currLine, level)])
      rw [replayLevels_append, ← h1]
    · show WritesDiffer (st.events ++ [(st.currLine, level)]) levels0 = true
      rw [WritesDiffer_append, h2, Bool.true_and, ← h1]
      exact bne_iff_ne.mpr hne
  · exact h

theorem foldLineEnd_inv {levels0 : List (Nat × Nat)} {foldCompact : Bool} {st : FoldSt}
    (h : FoldInv levels0 st) : FoldInv levels0 (foldLineEnd foldCompact st) :=
  foldEmit_inv h (foldLevelFor foldCompact st)

theorem foldLoop_inv (doc : List Char) (styles : List Seg) (foldCompact : Bool)
    (endPos : Nat) (levels0 : List (Nat × Nat)) :
    ∀ (fuel i : Nat) (st : FoldSt), FoldInv levels0 st →
      FoldInv levels0 (foldLoop doc styles foldCompact endPos i fuel st) := by
  intro fuel
  induction fuel with
  | zero =>
    intro i st h
    exact h
  | succ n ih =>
    intro i st h
    rw [show foldLoop doc styles foldCompact endPos i (n + 1) st =
      (if i < endPos then
        foldLoop doc styles foldCompact endPos (i + 1) n
          (foldVisible (SafeGetCharAt doc (i : Int) ' ')
            (if foldAtEOL doc i || i == endPos - 1 then
              foldLineEnd foldCompact (foldKeyPathUpd styles i st)
            else foldKeyPathUpd styles i st))
      else st) from rfl]
    split
    · apply ih
      apply foldVisible_inv
      split
      · exact foldLineEnd_inv (foldKeyPathUpd_inv h)
      · exact foldKeyPathUpd_inv h
    · exact h

/-- Every `SetLevel` performed by the scanning loop of `Fold` differs from the
value stored for that line at the moment of the call. -/
theorem foldScan_writesDiffer (doc : List Char) (styles : List Seg) (foldCompact : Bool)
    (startPos len : Nat) (levels0 : List (Nat × Nat)) :
    WritesDiffer (foldScan doc styles foldCompact startPos len levels0).events levels0 = true :=
  (foldLoop_inv doc styles foldCompact (startPos + len) levels0 (len + 1) startPos
    { currLine := lineOfPos doc startPos, visibleChars := 0, atKeyPath := false,
      levels := levels0, events := [] } ⟨rfl, rfl⟩).2

/-! ### The `highlight` flag across an iteration -/

theorem cfss_highlight (doc : List Char) (endPos : Nat) (c : Ctx) (s : Option Nat) :
    (contextForwardSetState doc endPos c s).highlight = c.highlight := by
  cases s
  · rw [cfss_none_eq]
    split <;> simp
  · rw [cfss_some_eq]
    split <;> simp [forwardSetState_eq]

theorem caseComment_highlight (c : Ctx) : (caseComment c).highlight = c.highlight := by
  unfold caseComment
  split <;> simp

theorem caseStringMain_highlight (doc : List Char) (endPos : Nat) (c : Ctx) :
    (caseStringMain doc endPos c).highlight = c.highlight := by
  unfold caseStringMain
  split
  · rw [cfss_highlight]
  · split
    · simp
    · split
      · split <;> simp
      · rfl

theorem caseStringTail_highlight (c : Ctx) : (caseStringTail c).highlight = c.highlight := by
  unfold caseStringTail
  split <;> simp

theorem caseParameterTail_highlight (doc : List Char) (endPos : Nat) (c : Ctx) :
    (caseParameterTail doc endPos c).highlight = c.highlight := by
  unfold caseParameterTail
  split
  · rw [cfss_highlight]
  · rfl

theorem caseValueType_highlight (c : Ctx) : (caseValueType c).highlight = c.highlight := by
  unfold caseValueType
  split <;> simp

theorem caseKeyPath_highlight (doc : List Char) (endPos : Nat) (c : Ctx) :
    (caseKeyPath doc endPos c).highlight = c.highlight := by
  unfold caseKeyPath
  split
  · rw [cfss_highlight]
  · split
    · split <;> simp
    · rfl

theorem caseEscaped_highlight (doc : List Char) (endPos : Nat) (c : Ctx) :
    (caseEscaped doc endPos c).highlight = c.highlight := by
  unfold caseEscaped
  split
  · rw [cfss_highlight]
    simp
  · split <;> simp

theorem caseGuidBrace_highlight (doc : List Char) (endPos : Nat) (c : Ctx) :
    (caseGuidBrace doc endPos c).highlight = c.highlight := by
  unfold caseGuidBrace
  split
  · show (contextForwardSetState doc endPos c (some c.beforeGUID)).highlight = c.highlight
    rw [cfss_highlight]
  · rfl

theorem caseGuidTail_highlight (doc : List Char) (endPos : Nat) (c : Ctx) :
    (caseGuidTail doc endPos c).highlight = c.highlight := by
  unfold caseGuidTail
  split
  · rw [cfss_highlight]
  · split
    · split <;> rw [cfss_highlight]
    · split
      · simp
      · rfl

theorem switchStep_highlight (doc : List Char) (endPos : Nat) (c : Ctx) :
    (switchStep doc endPos c).highlight = c.highlight := by
  unfold switchStep
  split
  · exact caseComment_highlight c
  · split
    · rw [caseStringTail_highlight, caseStringMain_highlight]
    · split
      · rw [caseParameterTail_highlight, cfss_highlight]
      · split
        · exact caseValueType_highlight c
        · split
          · simp
          · split
            · exact caseKeyPath_highlight doc endPos c
            · split
              · exact caseEscaped_highlight doc endPos c
              · split
                · rw [caseGuidTail_highlight, caseGuidBrace_highlight]
                · rfl

theorem entryMain_highlight (doc : List Char) (c : Ctx) (h : c.highlight = true) :
    (entryMain doc c).highlight = true := by
  unfold entryMain
  split
  · simp [h]
  · split
    · split <;> simp [h]
    · split
      · split <;> simp [h]
      · split
        · rfl
        · split
          · split <;> simp [h]
          · split <;> simp [h]

theorem entryAt_highlight (c : Ctx) (h : c.highlight = true) : (entryAt c).highlight = true := by
  unfold entryAt
  split <;> simp [h]

theorem entryOperator_highlight (c : Ctx) (h : c.highlight = true) :
    (entryOperator c).highlight = true := by
  unfold entryOperator
  split <;> simp [h]

theorem entryEol_highlight (c : Ctx) (h : c.highlight = true) :
    (entryEol c).highlight = true := by
  unfold entryEol
  split <;> simp [h]

theorem defaultEntry_highlight (doc : List Char) (c : Ctx) (h : c.highlight = true) :
    (defaultEntry doc c).highlight = true := by
  unfold defaultEntry
  split
  · exact entryEol_highlight _ (entryOperator_highlight _ (entryAt_highlight _
      (entryMain_highlight doc c h)))
  · exact h

/-! ### The claims -/

set_option maxRecDepth 100000

/-- C1: at the start of every physical line processed by Lex, if no trailing
backslash on the previous line is reachable by the backward whitespace-skip the
tokenizer state resets to `Default` and the remembered last non-default style is
cleared; if such a backslash is reachable the line starts in the very state (and
with the very last-non-default memory) left by the prior line — illustrated by a
string whose escape state carries across the continuation line break. -/
theorem claim_C1 :
    (∀ (doc : List Char) (c : Ctx), c.atLineStart = true →
      (IsPrevNonWhitespace doc (c.pos : Int) '\\' = false →
        (lineStartCheck doc c).state = SCE_REG_DEFAULT ∧
        (lineStartCheck doc c).stateLastNonDefault = SCE_REG_DEFAULT) ∧
      (IsPrevNonWhitespace doc (c.pos : Int) '\\' = true →
        (lineStartCheck doc c).state = c.state ∧
        (lineStartCheck doc c).stateLastNonDefault = c.stateLastNonDefault)) ∧
    RegistryLexAll "\"ab\\\ncd\"" =
      [SCE_REG_STRING, SCE_REG_STRING, SCE_REG_STRING, SCE_REG_ESCAPED, SCE_REG_ESCAPED,
       SCE_REG_STRING, SCE_REG_STRING, SCE_REG_STRING] := by
  constructor
  · intro doc c hstart
    constructor
    · intro hcont
      have hres : lineStartCheck doc c =
          { Ctx.setState { c with highlight := false } SCE_REG_DEFAULT with
              stateLastNonDefault := SCE_REG_DEFAULT } := by
        unfold lineStartCheck
        rw [if_pos hstart, hcont]
        rfl
      rw [hres]
      exact ⟨rfl, rfl⟩
    · intro hcont
      have hres : lineStartCheck doc c = { c with highlight := true } := by
        unfold lineStartCheck
        rw [if_pos hstart, hcont]
        rfl
      rw [hres]
      exact ⟨rfl, rfl⟩
  · decide

/-- C1 witness: the line-start reset evaluated at the start of a concrete
one-line document. -/
theorem claim_C1_witness :
    (lineStartCheck ['a'] (lexInit ['a'] 0 SCE_REG_STRING)).state = SCE_REG_DEFAULT ∧
    (lineStartCheck ['a'] (lexInit ['a'] 0 SCE_REG_STRING)).stateLastNonDefault =
      SCE_REG_DEFAULT :=
  (claim_C1.1 ['a'] (lexInit ['a'] 0 SCE_REG_STRING) (by decide)).1 (by decide)

/-- C2 counterexample: a buffer containing a NUL byte stops the scan early
(`while (context.More() && context.ch)`), so the styled segments do not cover
the requested range `[0, 3)`. -/
theorem claim_C2_counterexample :
    tilesB (RegistryLex ['a', nulChar, 'b'] 0 3 SCE_REG_DEFAULT).segs 0 3 = false := by
  decide

/-- C2 amended: for every NUL-free buffer and every span lying inside the
buffer, `Lex` styles exactly one contiguous run per position so that the
segments tile `[startPos, startPos + length)` with no gaps and no overlaps. -/
theorem claim_C2_amended_thm (doc : List Char) (startPos len initStyle : Nat)
    (hNul : ∀ ch ∈ doc, ch ≠ nulChar) (hle : startPos + len ≤ doc.length) :
    tilesB (RegistryLex doc startPos len initStyle).segs startPos (startPos + len) = true :=
  registryLex_covers doc startPos len initStyle hNul hle

/-- C2 witness: the coverage theorem evaluated on a concrete two-byte buffer. -/
theorem claim_C2_amended_witness :
    tilesB (RegistryLex ['a', 'b'] 0 2 SCE_REG_DEFAULT).segs 0 2 = true :=
  claim_C2_amended_thm ['a', 'b'] 0 2 SCE_REG_DEFAULT (by decide) (by decide)

/-- C3 counterexample: at the very start of a line that is NOT a continuation
line the highlight flag is `false`, not `true` — the code runs
`highlight = continued ? true : false`. -/
theorem claim_C3_counterexample :
    (lexInit ['a'] 0 SCE_REG_DEFAULT).atLineStart = true ∧
    IsPrevNonWhitespace ['a'] ((lexInit ['a'] 0 SCE_REG_DEFAULT).pos : Int) '\\' = false ∧
    (lineStartCheck ['a'] (lexInit ['a'] 0 SCE_REG_DEFAULT)).highlight = false := by
  decide

/-- C3 amended: at a line start the highlight flag is set to `true` exactly when
the line IS a continuation (and `false` otherwise); away from line starts an
iteration never clears it; and in the Default state it is forced back on at an
`=` assignment or at `@`. -/
theorem claim_C3_amended_thm :
    (∀ (doc : List Char) (c : Ctx), c.atLineStart = true →
      (lineStartCheck doc c).highlight = IsPrevNonWhitespace doc (c.pos : Int) '\\') ∧
    (∀ (doc : List Char) (endPos : Nat) (c : Ctx), c.atLineStart = false →
      c.highlight = true → (lexStep doc endPos c).highlight = true) ∧
    (∀ (doc : List Char) (c : Ctx), c.state = SCE_REG_DEFAULT →
      c.ch = '=' ∨ c.ch = '@' → (defaultEntry doc c).highlight = true) := by
  refine ⟨?_, ?_, ?_⟩
  · intro doc c hstart
    cases hcont : IsPrevNonWhitespace doc (c.pos : Int) '\\' with
    | false =>
      have hres : lineStartCheck doc c =
          { Ctx.setState { c with highlight := false } SCE_REG_DEFAULT with
              stateLastNonDefault := SCE_REG_DEFAULT } := by
        unfold lineStartCheck
        rw [if_pos hstart, hcont]
        rfl
      rw [hres]
      simp
    | true =>
      have hres : lineStartCheck doc c = { c with highlight := true } := by
        unfold lineStartCheck
        rw [if_pos hstart, hcont]
        rfl
      rw [hres]
  · intro doc endPos c hstart hh
    have hls : lineStartCheck doc c = c := by
      unfold lineStartCheck
      rw [if_neg]
      simp [hstart]
    unfold lexStep
    rw [cfss_highlight, hls]
    exact defaultEntry_highlight doc _ (by rw [switchStep_highlight]; exact hh)
  · intro doc c hst hch
    rcases hch with hch | hch <;> cases hAE : c.afterEqualSign <;>
      simp +decide [defaultEntry, entryMain, entryAt, entryOperator, entryEol, hst, hch, hAE,
        setOperatorsContains, isalphaC, IsByteValue, isxdigitC]

/-- C3 amended witness: the line-start recomputation and the `=` re-enable
evaluated at concrete inputs. -/
theorem claim_C3_amended_witness :
    (lineStartCheck ['a'] (lexInit ['a'] 0 SCE_REG_DEFAULT)).highlight =
      IsPrevNonWhitespace ['a'] (((lexInit ['a'] 0 SCE_REG_DEFAULT).pos : Nat) : Int) '\\' ∧
    (defaultEntry ['='] (lexInit ['='] 0 SCE_REG_DEFAULT)).highlight = true :=
  ⟨claim_C3_amended_thm.1 ['a'] (lexInit ['a'] 0 SCE_REG_DEFAULT) (by decide),
   claim_C3_amended_thm.2.2 ['='] (lexInit ['='] 0 SCE_REG_DEFAULT) (by decide)
     (Or.inl (by decide))⟩

/-- C4: on a `"` seen in the Default state the tokenizer enters ValueName
exactly when the forward scan `AtValueName` (backslash escapes the following
character; an unescaped closing quote delegates to the whitespace-skip looking
for `=`; end-of-line gives false) succeeds, and String otherwise; in particular
`"Foo"="bar"` tags `"Foo"` ValueName and `"bar"` String. -/
theorem claim_C4 :
    (∀ (doc : List Char) (c : Ctx), c.state = SCE_REG_DEFAULT → c.ch = '"' →
      (defaultEntry doc c).state =
        (if AtValueName doc (c.pos : Int) then SCE_REG_VALUENAME else SCE_REG_STRING)) ∧
    RegistryLexAll "\"Foo\"=\"bar\"" =
      [SCE_REG_VALUENAME, SCE_REG_VALUENAME, SCE_REG_VALUENAME, SCE_REG_VALUENAME,
       SCE_REG_VALUENAME, SCE_REG_OPERATOR, SCE_REG_STRING, SCE_REG_STRING, SCE_REG_STRING,
       SCE_REG_STRING, SCE_REG_STRING] := by
  constructor
  · intro doc c hst hch
    cases hAV : AtValueName doc (c.pos : Int) <;>
      simp +decide [defaultEntry, entryMain, entryAt, entryOperator, entryEol, hst, hch, hAV,
        setOperatorsContains]
  · decide

/-- C4 witness: the quote classification evaluated at the opening quote of a
concrete document. -/
theorem claim_C4_witness :
    (defaultEntry ("\"a\"=".data) (lexInit ("\"a\"=".data) 0 SCE_REG_DEFAULT)).state =
      (if AtValueName ("\"a\"=".data) (((lexInit ("\"a\"=".data) 0 SCE_REG_DEFAULT).pos :
        Nat) : Int) then SCE_REG_VALUENAME else SCE_REG_STRING) :=
  claim_C4.1 ("\"a\"=".data) (lexInit ("\"a\"=".data) 0 SCE_REG_DEFAULT) (by decide) (by decide)

/-- C5: on a `[` seen in the Default state the tokenizer enters DeletedKeyPath
exactly when the next non-whitespace character before end-of-line is `-`, and
AddedKeyPath otherwise; the two bracketed hive paths are styled accordingly in
full. -/
theorem claim_C5 :
    (∀ (doc : List Char) (c : Ctx), c.state = SCE_REG_DEFAULT → c.ch = '[' →
      (defaultEntry doc c).state =
        (if IsNextNonWhitespace doc (c.pos : Int) '-' then SCE_REG_DELETEDKEY
         else SCE_REG_ADDEDKEY)) ∧
    RegistryLexAll "[HKEY_CURRENT_USER\\Software\\Foo]" =
      List.replicate 32 SCE_REG_ADDEDKEY ∧
    RegistryLexAll "[-HKEY_CURRENT_USER\\Software\\Foo]" =
      List.replicate 33 SCE_REG_DELETEDKEY := by
  refine ⟨?_, by rfl, by rfl⟩
  intro doc c hst hch
  cases hNW : IsNextNonWhitespace doc (c.pos : Int) '-' <;>
    simp +decide [defaultEntry, entryMain, entryAt, entryOperator, entryEol, hst, hch, hNW,
      setOperatorsContains]

/-- C5 witness: the bracket classification evaluated at the opening bracket of a
concrete document. -/
theorem claim_C5_witness :
    (defaultEntry ("[-k]".data) (lexInit ("[-k]".data) 0 SCE_REG_DEFAULT)).state =
      (if IsNextNonWhitespace ("[-k]".data) (((lexInit ("[-k]".data) 0 SCE_REG_DEFAULT).pos :
        Nat) : Int) '-' then SCE_REG_DELETEDKEY else SCE_REG_ADDEDKEY) :=
  claim_C5.1 ("[-k]".data) (lexInit ("[-k]".data) 0 SCE_REG_DEFAULT) (by decide) (by decide)

/-- C6: the canonical GUID inside a quoted string is styled StringGuid exactly
between (and including) its braces while the quotes and surrounding content
stay String; and the GUID-shape check demands exactly 36 hex-or-hyphen
characters — group lengths only, hyphens tolerated anywhere — followed by the
closing `}`, as witnessed by an input with misplaced hyphens and by a missing
closing brace. -/
theorem claim_C6 :
    RegistryLexAll "\"a{01234567-89AB-CDEF-0123-456789ABCDEF}b\"" =
      [SCE_REG_STRING, SCE_REG_STRING] ++ List.replicate 38 SCE_REG_STRING_GUID ++
        [SCE_REG_STRING, SCE_REG_STRING] ∧
    (∀ (doc : List Char) (start : Int),
      AtGUID doc start =
        (guidCharsFrom doc (start + 1) 36 && (SafeGetCharAt doc (start + 37) ' ' == '}'))) ∧
    AtGUID ('{' :: ("-1234567-89AB-CDEF-0123-456789ABCDEF".data ++ ['}'])) 0 = true ∧
    AtGUID ('{' :: "01234567-89AB-CDEF-0123-456789ABCDEFX".data) 0 = false := by
  refine ⟨by rfl, AtGUID_eq, by decide, by decide⟩

/-- C7: with folding enabled, a four-line document of a key-path header, an
assignment, another header and another assignment folds to
`[base | header, base + 1, base | header, base + 1]`; with folding disabled the
folder performs no writes and leaves the stored levels untouched. -/
theorem claim_C7 :
    ((List.range 4).map
      (levelAt (RegistryFold true false ("[k]\n\"a\"=1\n[j]\n\"b\"=1".data)
        ((RegistryLex ("[k]\n\"a\"=1\n[j]\n\"b\"=1".data) 0
          ("[k]\n\"a\"=1\n[j]\n\"b\"=1".data).length SCE_REG_DEFAULT).segs)
        0 ("[k]\n\"a\"=1\n[j]\n\"b\"=1".data).length []).levels) =
      [SC_FOLDLEVELBASE ||| SC_FOLDLEVELHEADERFLAG, SC_FOLDLEVELBASE + 1,
       SC_FOLDLEVELBASE ||| SC_FOLDLEVELHEADERFLAG, SC_FOLDLEVELBASE + 1]) ∧
    (∀ (doc : List Char) (styles : List Seg) (foldCompact : Bool)
      (startPos len : Nat) (levels0 : List (Nat × Nat)),
      (RegistryFold false foldCompact doc styles startPos len levels0).events = [] ∧
      (RegistryFold false foldCompact doc styles startPos len levels0).levels = levels0) := by
  constructor
  · decide
  · intro doc styles foldCompact startPos len levels0
    exact ⟨rfl, rfl⟩

/-- C8 counterexample: folding the one-line document `"a"` performs the trailing
`SetLevel` one line past the span even though the computed level equals the
value already stored for that line — the tail write is unconditional. -/
theorem claim_C8_counterexample :
    (RegistryFold true false ['a'] ((RegistryLex ['a'] 0 1 SCE_REG_DEFAULT).segs) 0 1
      []).events = [(1, SC_FOLDLEVELBASE)] ∧
    levelAt [] 1 = SC_FOLDLEVELBASE ∧
    WritesDiffer ((RegistryFold true false ['a'] ((RegistryLex ['a'] 0 1
      SCE_REG_DEFAULT).segs) 0 1 []).events) [] = false := by
  decide

/-- C8 amended: within the scanned span every `SetLevel` the folder performs
differs from the value stored for that line at the moment of the call; the one
extra line past the span is then written unconditionally. -/
theorem claim_C8_amended_thm :
    (∀ (doc : List Char) (styles : List Seg) (foldCompact : Bool)
      (startPos len : Nat) (levels0 : List (Nat × Nat)),
      WritesDiffer (foldScan doc styles foldCompact startPos len levels0).events levels0 =
        true) ∧
    (∀ (doc : List Char) (styles : List Seg) (foldCompact : Bool)
      (startPos len : Nat) (levels0 : List (Nat × Nat)),
      (RegistryFold true foldCompact doc styles startPos len levels0).events =
        (foldScan doc styles foldCompact startPos len levels0).events ++
          [((foldScan doc styles foldCompact startPos len levels0).currLine,
            foldTailLevel (foldScan doc styles foldCompact startPos len levels0))]) := by
  constructor
  · intro doc styles foldCompact startPos len levels0
    exact foldScan_writesDiffer doc styles foldCompact startPos len levels0
  · intro doc styles foldCompact startPos len levels0
    rfl

/-- C9: setting an unrecognized property key returns the not-found indication
`-1`; setting one of the recognized keys (`fold`, `fold.compact`) returns the
success indication `0`, for every value. -/
theorem claim_C9 :
    ∀ (key val : String),
      (registryPropertyKeys.contains key = false → RegistryPropertySet key val = -1) ∧
      (registryPropertyKeys.contains key = true → RegistryPropertySet key val = 0) := by
  intro key val
  constructor <;> intro h <;>
    simp [RegistryPropertySet, OptionSetRegistryPropertySet, h] <;> simpa using h

/-- C9 witness: a recognized key succeeds and an unrecognized key fails. -/
theorem claim_C9_witness :
    RegistryPropertySet "fold" "1" = 0 ∧ RegistryPropertySet "bogus" "1" = -1 :=
  ⟨(claim_C9 "fold" "1").2 (by decide), (claim_C9 "bogus" "1").1 (by decide)⟩

/-- C10: a bare line terminator seen in the Default state re-inherits the
remembered last non-default style, a continuation line start suppresses the
reset, and consequently a comment line ending in a trailing backslash styles the
line break and the whole next physical line Comment. -/
theorem claim_C10 :
    (∀ (doc : List Char) (c : Ctx), c.state = SCE_REG_DEFAULT →
      c.ch = '\r' ∨ c.ch = '\n' →
      (defaultEntry doc c).state = c.stateLastNonDefault) ∧
    (∀ (doc : List Char) (c : Ctx), c.atLineStart = true →
      IsPrevNonWhitespace doc (c.pos : Int) '\\' = true →
      (lineStartCheck doc c).state = c.state) ∧
    RegistryLexAll "; c\\\nx" =
      [SCE_REG_COMMENT, SCE_REG_COMMENT, SCE_REG_COMMENT, SCE_REG_COMMENT, SCE_REG_COMMENT,
       SCE_REG_COMMENT] := by
  refine ⟨?_, ?_, by decide⟩
  · intro doc c hst hch
    rcases hch with hch | hch <;> cases hAE : c.afterEqualSign <;>
      simp +decide [defaultEntry, entryMain, entryAt, entryOperator, entryEol, hst, hch, hAE,
        setOperatorsContains, isalphaC, IsByteValue, isxdigitC]
  · intro doc c hstart hcont
    have hres : lineStartCheck doc c = { c with highlight := true } := by
      unfold lineStartCheck
      rw [if_pos hstart, hcont]
      rfl
    rw [hres]

/-- C10 witness: the end-of-line inheritance evaluated at a concrete newline. -/
theorem claim_C10_witness :
    (defaultEntry ['\n'] (lexInit ['\n'] 0 SCE_REG_DEFAULT)).state =
      (lexInit ['\n'] 0 SCE_REG_DEFAULT).stateLastNonDefault :=
  claim_C10.1 ['\n'] (lexInit ['\n'] 0 SCE_REG_DEFAULT) (by decide) (Or.inr (by decide))

end Registry

